import Mathlib

/-!
Verification of the CliChart pseudo-terminal session manager
(`src/lib/session-manager.js`) against its natural-language specification.

The JavaScript source is shallowly embedded: each method of `SessionManager`
becomes a pure Lean function over an explicit state, JS `Map`s become
insertion-ordered association lists (JS map keys are unique; `set` on an
existing key keeps its position, `delete` removes it), JS numbers used as
timestamps become `Int`, and side effects on the process / disk are returned
as explicit event lists.  Leading underscores of private method names are
dropped (`_saveHistory` becomes `saveHistory`).
-/

set_option maxHeartbeats 1000000

/-- Session mode: `mode === 'terminal' ? 'terminal' : 'chat'`. -/
inductive Mode where
  | chat
  | terminal
deriving DecidableEq, Repr

/-- Message role in a chat transcript (`'user'` / `'assistant'`). -/
inductive Role where
  | user
  | assistant
deriving DecidableEq, Repr

/-- One transcript message `{role, content, ts}`. -/
structure Msg where
  role : Role
  content : String
  ts : Int
deriving DecidableEq, Repr

/-- One uploaded-file reference `{path, name, addedAt}`. -/
structure FileRef where
  path : String
  name : String
  addedAt : Int
deriving DecidableEq, Repr

/-- A JavaScript number as used for `inactiveSessionTimeout`
(`Number(config.inactiveSessionTimeout || 30*60*1000)` may be NaN or ±Infinity). -/
inductive JSNum where
  | num (v : Int)
  | nan
  | posInf
  | negInf
deriving DecidableEq, Repr

/-- `Number.isFinite`. -/
def JSNum.isFinite : JSNum → Bool
  | .num _ => true
  | _ => false

/-- Externally visible side effects of the session manager: process spawn and
kill, durable per-user history writes, transcript-file writes, and runtime
snapshot file writes/deletes. -/
inductive Eff where
  | spawn (sessionId : String)
  | kill (sessionId : String)
  | historyWrite (username : String)
  | transcriptWrite (username sessionId : String)
  | snapshotWrite
  | snapshotDelete
deriving DecidableEq, Repr

/-! ### Insertion-ordered association lists (JS `Map`) -/

/-- `Map.get`: first binding of the key (keys are unique in a JS map). -/
def lookupA {κ α : Type} [DecidableEq κ] : List (κ × α) → κ → Option α
  | [], _ => none
  | (k', v) :: rest, k => if k' = k then some v else lookupA rest k

/-- `Map.set`: replace in place if the key exists, otherwise append. -/
def setEntry {κ α : Type} [DecidableEq κ] : List (κ × α) → κ → α → List (κ × α)
  | [], k, v => [(k, v)]
  | (k', v') :: rest, k, v =>
    if k' = k then (k, v) :: rest else (k', v') :: setEntry rest k v

/-- `Map.delete`. -/
def eraseKey {κ α : Type} [DecidableEq κ] (l : List (κ × α)) (k : κ) : List (κ × α) :=
  l.filter (fun p => p.1 ≠ k)

/-! ### Durable history entries (`_normalizeHistoryItem`, `_compactHistory`) -/

/-- A durable `HistoryEntry` record.  Falsy JS field values are represented by
the corresponding sentinel (`""` for a missing string, `0` for a missing
number, `none` for `undefined`). -/
@[ext]

structure HistoryItem where
  sessionId : String
  agentId : String
  modelId : String
  mode : Mode
  createdAt : Int
  endedAt : Option Int
  filesCount : Int
  title : String
  hasTranscript : Bool
  endedReason : Option String
deriving DecidableEq, Repr

/-- `item.endedAt ? Number(item.endedAt) : undefined` (`0` is falsy). -/
def normEnded : Option Int → Option Int
  | none => none
  | some v => if v = 0 then none else some v

/-- `item.endedReason || undefined` (`""` is falsy). -/
def normReason : Option String → Option String
  | none => none
  | some r => if r = "" then none else some r

/-- The fallback title: `` `${item.agentId || 'agent'} / ${item.modelId || 'default'}` ``. -/
def fallbackTitle (item : HistoryItem) : String :=
  (if item.agentId = "" then "agent" else item.agentId) ++ " / " ++
    (if item.modelId = "" then "default" else item.modelId)

/-- `_normalizeHistoryItem(item)`: `none` when the item has no `sessionId`
(a falsy, i.e. empty, id); otherwise the normalized entry.  `now` stands for
the `Date.now()` fallback used for a missing `createdAt`. -/
def normalizeHistoryItem (now : Int) (item : HistoryItem) : Option HistoryItem :=
  if item.sessionId = "" then none else
  some { sessionId := item.sessionId
       , agentId := if item.agentId = "" then "unknown" else item.agentId
       , modelId := if item.modelId = "" then "default" else item.modelId
       , mode := item.mode
       , createdAt := if item.createdAt = 0 then now else item.createdAt
       , endedAt := normEnded item.endedAt
       , filesCount := item.filesCount
       , title := if item.title = "" then fallbackTitle item else item.title
       , hasTranscript := if item.mode = Mode.terminal then false else true
       , endedReason := normReason item.endedReason }

/-- The field-level merge of a duplicate entry in `_compactHistory`:
`{...prev, ...item}` (every key of the normalized `item` wins) with
`createdAt` and `endedAt` recomputed by the falsy-or chain. -/
def mergeItems (prev item : HistoryItem) : HistoryItem :=
  { item with
    createdAt := if prev.createdAt = 0 then item.createdAt else prev.createdAt
    endedAt :=
      match item.endedAt with
      | some v => if v = 0 then normEnded prev.endedAt else some v
      | none => normEnded prev.endedAt }

/-- `dedup.set(sessionId, ...)`: replace the existing entry for the same
`sessionId` in place (merging), or append a fresh one. -/
def dedupInsert : List HistoryItem → HistoryItem → List HistoryItem
  | [], item => [item]
  | prev :: rest, item =>
    if prev.sessionId = item.sessionId then mergeItems prev item :: rest
    else prev :: dedupInsert rest item

/-- Stable insertion used to model the stable JS
`arr.sort((a, b) => a.createdAt - b.createdAt)`: the new element goes after
every already-placed element with a key less than or equal to its own. -/
def insertByCreatedAt (x : HistoryItem) : List HistoryItem → List HistoryItem
  | [] => [x]
  | y :: ys =>
    if y.createdAt ≤ x.createdAt then y :: insertByCreatedAt x ys else x :: y :: ys

/-- Stable ascending sort by `createdAt`. -/
def sortByCreatedAt (l : List HistoryItem) : List HistoryItem :=
  l.foldl (fun acc x => insertByCreatedAt x acc) []

/-- `arr.slice(-80)`: keep the last 80 elements. -/
def sliceLast80 (l : List HistoryItem) : List HistoryItem :=
  l.drop (l.length - 80)

/-- One step of the dedup fold of `_compactHistory`: drop raw items that do
not normalize, merge the rest into the dedup map. -/
def compactFoldStep (now : Int) (acc : List HistoryItem) (raw : HistoryItem) :
    List HistoryItem :=
  match normalizeHistoryItem now raw with
  | none => acc
  | some item => dedupInsert acc item

/-- `_compactHistory(items)`: normalize every raw item, deduplicate by
`sessionId` with field-level merge (insertion order preserved), sort stably
by `createdAt` ascending, keep the most recent 80. -/
def compactHistory (now : Int) (items : List HistoryItem) : List HistoryItem :=
  sliceLast80 (sortByCreatedAt (items.foldl (compactFoldStep now) []))

/-! ### Per-user durable history store (`_readHistoryForUser`, `_writeHistoryForUser`) -/

/-- The owner-scoped durable history: one JSON file per user (`files`) plus
the in-memory `historyCache`. -/
structure HistStore where
  files : List (String × List HistoryItem)
  cache : List (String × List HistoryItem)
deriving DecidableEq, Repr

/-- `_readHistoryForUser(username)`: serve from the cache if present,
otherwise parse and compact the user's file (an absent or unreadable file
reads as `[]`), filling the cache. -/
def readHistoryForUser (now : Int) (st : HistStore) (u : String) :
    List HistoryItem × HistStore :=
  match lookupA st.cache u with
  | some h => (h, st)
  | none =>
    let c := match lookupA st.files u with
      | none => []
      | some raw => compactHistory now raw
    (c, { st with cache := setEntry st.cache u c })

/-- `_writeHistoryForUser(username, history)`: compact, update the cache and
rewrite the user's file. -/
def writeHistoryForUser (now : Int) (st : HistStore) (u : String)
    (history : List HistoryItem) : HistStore :=
  let c := compactHistory now history
  { files := setEntry st.files u c, cache := setEntry st.cache u c }

/-- The value `_readHistoryForUser` returns, ignoring the cache fill. -/
def histRead (now : Int) (st : HistStore) (u : String) : List HistoryItem :=
  (readHistoryForUser now st u).1

/-! ### Runtime snapshot and crash recovery (`_recoverRuntimeState`) -/

/-- One record of the `.runtime-active.json` snapshot, as written by
`_persistRuntimeState` for each live session. -/
structure SnapshotItem where
  sessionId : String
  username : String
  agentId : String
  modelId : String
  mode : Mode
  createdAt : Int
  lastActivityAt : Int
  title : String
  filesCount : Int
  hasTranscript : Bool
deriving DecidableEq, Repr

/-- `{...item, endedAt: now, endedReason: 'server_restart'}`: the raw history
item synthesized from a snapshot record during recovery. -/
def snapshotToRaw (now : Int) (it : SnapshotItem) : HistoryItem :=
  { sessionId := it.sessionId
  , agentId := it.agentId
  , modelId := it.modelId
  , mode := it.mode
  , createdAt := it.createdAt
  , endedAt := some now
  , filesCount := it.filesCount
  , title := it.title
  , hasTranscript := it.hasTranscript
  , endedReason := some "server_restart" }

/-- One iteration of the recovery loop: skip records that do not normalize or
lack a username; otherwise remove any existing entry with the same
`sessionId` from the owner's history, append the synthesized entry, and
rewrite the owner's history. -/
def recoverStep (now : Int) (st : HistStore) (it : SnapshotItem) : HistStore :=
  match normalizeHistoryItem now (snapshotToRaw now it) with
  | none => st
  | some normalized =>
    if it.username = "" then st else
    let rh := readHistoryForUser now st it.username
    let next := rh.1.filter (fun h => ¬ h.sessionId = normalized.sessionId) ++ [normalized]
    writeHistoryForUser now rh.2 it.username next

/-- `_recoverRuntimeState()`: replay the snapshot (when the file exists) into
the per-owner durable histories, then delete the snapshot file. -/
def recoverRuntimeState (now : Int) (st : HistStore)
    (snapshot : Option (List SnapshotItem)) :
    HistStore × Option (List SnapshotItem) :=
  match snapshot with
  | none => (st, none)
  | some items => (items.foldl (recoverStep now) st, none)

/-! ### Live sessions -/

/-- The in-memory session record created by `createSession` (the `pty` handle,
timers and the subscriber set are modeled outside this structure). -/
structure Session where
  sessionId : String
  agentId : String
  modelId : String
  username : String
  createdAt : Int
  lastActivityAt : Int
  outputBuffer : String
  terminalReplayBuffer : String
  terminalInputLine : String
  messages : List Msg
  lastAssistantIndex : Int
  started : Bool
  mode : Mode
  title : String
  historySaved : Bool
  startCommandSent : Bool
  files : List FileRef
  pendingInputs : List String
  userMessageCount : Int
deriving DecidableEq, Repr

/-- `_touchSession(session)`. -/
def touchSession (now : Int) (s : Session) : Session :=
  { s with lastActivityAt := now }

/-! #### Terminal input replay (`_appendTerminalInputReplay`)

The two anchored regular expressions guarding the function are implemented as
fuel-driven recursive-descent matchers; both regexes are deterministic
(a group always ends in `c` and never starts with `;` or a digit clash), so
no backtracking is needed.  The fuel is the input length plus one, which each
matcher never exhausts because every group consumes at least one character. -/

/-- Matches `[0-9;]`. -/
def isDigitSemi (c : Char) : Bool := c.isDigit || c = ';'

/-- `^(?:\x1b\[(?:\?|>)[0-9;]*c)+$` — a primary device-attributes query burst. -/
def deviceAttrGroups : Nat → List Char → Bool
  | 0, _ => false
  | fuel + 1, '\x1b' :: '[' :: c :: rest =>
    if c = '?' || c = '>' then
      match rest.dropWhile isDigitSemi with
      | 'c' :: r => r.isEmpty || deviceAttrGroups fuel r
      | _ => false
    else false
  | _ + 1, _ => false

/-- Test of the first guard regex on a whole chunk. -/
def isDeviceAttrQuery (chunk : String) : Bool :=
  deviceAttrGroups (chunk.length + 1) chunk.toList

/-- Consume `[0-9]+`, or fail. -/
def parseDigits1 : List Char → Option (List Char)
  | c :: rest => if c.isDigit then some (rest.dropWhile Char.isDigit) else none
  | [] => none

/-- Consume `(?:;[0-9]+)*` greedily (the tail never starts a group, which
always begins with a digit, so greediness is exact). -/
def parseSemiNums : Nat → List Char → List Char
  | 0, l => l
  | fuel + 1, l =>
    match l with
    | ';' :: r =>
      match parseDigits1 r with
      | some r2 => parseSemiNums fuel r2
      | none => l
    | _ => l

/-- `^(?:[0-9]+(?:;[0-9]+)*c)+$` — a bare secondary device-attributes reply. -/
def bareDAGroups : Nat → List Char → Bool
  | 0, _ => false
  | fuel + 1, l =>
    match parseDigits1 l with
    | none => false
    | some r =>
      match parseSemiNums (fuel + 1) r with
      | 'c' :: r2 => r2.isEmpty || bareDAGroups fuel r2
      | _ => false

/-- Test of the second guard regex on a whole chunk. -/
def isBareDAResponse (chunk : String) : Bool :=
  bareDAGroups (chunk.length + 1) chunk.toList

/-! #### Character-level string primitives

The JS string operations used by the source (`replace(/\r/g, '\n')`,
`split('\n')`, `trim()`, `slice`, `join`) are modeled directly on the
character list of a `String`, matching their per-code-point semantics. -/

/-- `text.replace(/\r/g, '\n')`. -/
def replaceCR (s : String) : String :=
  String.mk (s.toList.map (fun c => if c = '\r' then '\n' else c))

/-- The accumulator loop of `split('\n')` (empty pieces are preserved). -/
def splitLinesGo (cur : List Char) : List Char → List String
  | [] => [String.mk cur.reverse]
  | c :: cs =>
    if c = '\n' then String.mk cur.reverse :: splitLinesGo [] cs
    else splitLinesGo (c :: cur) cs

/-- `text.split('\n')`. -/
def splitLines (s : String) : List String :=
  splitLinesGo [] s.toList

/-- `text.trim()`. -/
def jsTrim (s : String) : String :=
  String.mk (((s.toList.dropWhile Char.isWhitespace).reverse.dropWhile
    Char.isWhitespace).reverse)

/-- `array.join('\n')`. -/
def joinLines : List String → String
  | [] => ""
  | [x] => x
  | x :: xs => x ++ "\n" ++ joinLines xs

/-- `text.slice(0, -1)`: drop the last character. -/
def dropLastChar (s : String) : String :=
  String.mk s.toList.dropLast

/-- `text.slice(0, n)`: the first `n` characters. -/
def takeChars (n : Nat) (s : String) : String :=
  String.mk (s.toList.take n)

/-- `text.slice(-n)`: the last `n` characters. -/
def lastChars (n : Nat) (s : String) : String :=
  String.mk (s.toList.drop (s.toList.length - n))

/-- One character of the echo-reconstruction loop: newline flushes the pending
input line, `^C` becomes a literal marker, backspace/delete drops the last
character, printable characters accumulate. -/
def replayInputStep (acc : String × String) (ch : Char) : String × String :=
  let buffer := acc.1
  let line := acc.2
  if ch = '\r' ∨ ch = '\n' then
    if line ≠ "" then (buffer ++ line ++ "\n", "") else (buffer ++ "\n", "")
  else if ch = '\x03' then (buffer ++ "^C\n", "")
  else if ch = '\x7f' ∨ ch = '\x08' then (buffer, dropLastChar line)
  else if ' ' ≤ ch ∧ ch ≠ '\x7f' then (buffer, line.push ch)
  else (buffer, line)

/-- `_appendTerminalInputReplay(session, chunk)`: terminal-mode sessions only;
device-attribute control bursts are ignored; otherwise the chunk is folded
character by character into the replay buffer, which is trimmed to its last
400000 characters once it exceeds 600000. -/
def appendTerminalInputReplay (s : Session) (chunk : String) : Session :=
  if s.mode ≠ Mode.terminal ∨ chunk = "" then s
  else if isDeviceAttrQuery chunk then s
  else if isBareDAResponse chunk ∧ chunk.length ≤ 48 then s
  else
    let bl := chunk.toList.foldl replayInputStep (s.terminalReplayBuffer, s.terminalInputLine)
    let buffer := if bl.1.length > 600000 then lastChars 400000 bl.1 else bl.1
    { s with terminalReplayBuffer := buffer, terminalInputLine := bl.2 }

/-! #### Input queueing and delivery (`sendInput`, `sendChatInput`,
`_simulateTyping`, `_flushPendingInputs`, `_markSessionReady`)

Each delivery operation returns the updated session together with the list of
strings written to the underlying pty process, in write order. -/

/-- The bound on the pending-input queue: past 200 entries, keep the last 120. -/
def capPendingInputs (l : List String) : List String :=
  if l.length > 200 then l.drop (l.length - 120) else l

/-- `sendInput(sessionId, text)` on an existing session: queue while the
session is not started, write directly once it is. -/
def sendInput (now : Int) (s : Session) (text : String) : Session × List String :=
  let s := appendTerminalInputReplay s text
  if ¬ s.started then
    let s := touchSession now s
    ({ s with pendingInputs := capPendingInputs (s.pendingInputs ++ [text]) }, [])
  else
    (touchSession now s, [text])

/-- The batch accumulator of `_simulateTyping`: `cur` holds the characters of
the batch being built, in reverse; a batch is emitted when it reaches 10
characters (`Math.min(10, chars.length - index)`) or at the end of the text. -/
def typingBatchesGo (cur : List Char) : List Char → List String
  | [] => if cur.isEmpty then [] else [String.mk cur.reverse]
  | c :: cs =>
    if cur.length = 9 then String.mk (cur.reverse ++ [c]) :: typingBatchesGo [] cs
    else typingBatchesGo (c :: cur) cs

/-- `_simulateTyping(session, text)`: the write sequence of an uninterrupted
run — batches of at most 10 characters written one after another (with a
scheduling delay between them) while the session stays alive.  `Array.from`
splits into code points, as `String.toList` does; an empty text writes
nothing. -/
def simulateTyping (text : String) : List String :=
  typingBatchesGo [] text.toList

/-- `sendChatInput(sessionId, text)` on an existing session: append the line
terminator; queue while not started; once started, Gemini sessions get the
simulated-typing chunked delivery, every other agent a single direct write. -/
def sendChatInput (now : Int) (s : Session) (text : String) : Session × List String :=
  let s := appendTerminalInputReplay s (text ++ "\r")
  let fullText := text ++ "\r"
  if ¬ s.started then
    let s := touchSession now s
    ({ s with pendingInputs := capPendingInputs (s.pendingInputs ++ [fullText]) }, [])
  else
    let s := touchSession now s
    if s.agentId = "gemini" then (s, simulateTyping fullText)
    else (s, [fullText])

/-- `_flushPendingInputs(session)`: drain the queue and write every chunk
directly, in queue order. -/
def flushPendingInputs (now : Int) (s : Session) : Session × List String :=
  if s.pendingInputs.isEmpty then (s, [])
  else
    ({ s with pendingInputs := [], lastActivityAt := now }, s.pendingInputs)

/-- `_markSessionReady(session)`: a no-op on an already started session;
otherwise set `started` and flush the queue. -/
def markSessionReady (now : Int) (s : Session) : Session × List String :=
  if s.started then (s, [])
  else flushPendingInputs now { s with started := true }

/-! #### Chat transcript builder (`recordUserMessage`, `_appendAssistantOutput`,
`_filterAssistantNoiseChunk`)

The ANSI-escape stripping regex and the noise-line pattern table are the
source's replaceable text-policy knobs (spec §9); they enter the model as the
function parameters `stripAnsi` and `noiseLine`, and every theorem below holds
for an arbitrary choice of the two. -/

/-- `text.replace(/\s+/g, ' ')`. -/
def collapseWs (s : String) : String :=
  (s.toList.foldl (fun (acc : String × Bool) c =>
    if c.isWhitespace then (if acc.2 then acc else (acc.1.push ' ', true))
    else (acc.1.push c, false)) ("", false)).1

/-- `recordUserMessage(sessionId, text)` on an existing session. -/
def recordUserMessage (now : Int) (s : Session) (text : String) : Session :=
  let isFirstUserMsg : Bool := ! s.messages.any (fun m => m.role == Role.user)
  let s1 : Session := touchSession now s
  let s2 : Session := { s1 with
    messages := s1.messages ++ [({ role := Role.user, content := text, ts := now } : Msg)],
    userMessageCount := s1.userMessageCount + 1 }
  let s3 : Session :=
    if isFirstUserMsg then
      let short := takeChars 40 (jsTrim (collapseWs text))
      { s2 with title := (if short = "" then "新会话" else short) ++ " · " ++ s2.modelId }
    else s2
  let s4 : Session := { s3 with lastAssistantIndex := -1 }
  if s4.messages.length > 2000 then
    { s4 with messages := s4.messages.drop (s4.messages.length - 1500) }
  else s4

/-- `joined.replace(/\n{3,}/g, '\n\n')`. -/
def collapseNewlineRuns (s : String) : String :=
  (s.toList.foldl (fun (acc : String × Nat) c =>
    if c = '\n' then
      (if acc.2 ≥ 2 then acc.1 else acc.1.push '\n', acc.2 + 1)
    else (acc.1.push c, 0)) ("", 0)).1

/-- `_filterAssistantNoiseChunk(chunk)`: fold carriage returns to newlines,
drop noise lines and collapse blank-line runs, keeping the remainder. -/
def filterAssistantNoiseChunk (stripAnsi : String → String) (noiseLine : String → Bool)
    (chunk : String) : String :=
  if chunk = "" then "" else
  let normalized := replaceCR chunk
  let kept := (splitLines normalized).foldl (fun kept line =>
    let plain := jsTrim (stripAnsi line)
    if plain = "" then
      (if kept ≠ [] ∧ kept.getLast? ≠ some "" then kept ++ [""] else kept)
    else if noiseLine plain then kept
    else kept ++ [line]) []
  let compacted := collapseNewlineRuns (joinLines kept)
  if jsTrim compacted = "" then "" else compacted

/-- The running byte-budget sweep at the end of `_appendAssistantOutput`:
walking from the newest message backwards, keep messages while the cumulative
content length stays at or under 2000000 (the message that crosses the budget
and everything older is dropped). -/
def takeUnderBudget : List Msg → Nat → List Msg
  | [], _ => []
  | m :: rest, total =>
    let t := total + m.content.length
    if t > 2000000 then [] else m :: takeUnderBudget rest t

/-- The transcript after the byte-budget sweep. -/
def truncateMessages (msgs : List Msg) : List Msg :=
  (takeUnderBudget msgs.reverse 0).reverse

/-- Applying the byte-budget sweep to a session (`lastAssistantIndex` is reset
to the last message exactly when something was dropped). -/
def applyTranscriptBudget (s : Session) : Session :=
  let msgs3 := truncateMessages s.messages
  if msgs3.length = s.messages.length then s
  else { s with messages := msgs3, lastAssistantIndex := (msgs3.length : Int) - 1 }

/-- `_appendAssistantOutput(session, chunk)`: chat mode only; discarded until
at least one user message is recorded (the one-shot `userMessageCount` gate);
the filtered chunk is appended to the open assistant message when
`lastAssistantIndex` points at one, otherwise a new assistant message opens. -/
def appendAssistantOutput (stripAnsi : String → String) (noiseLine : String → Bool)
    (now : Int) (s : Session) (chunk : String) : Session :=
  if s.mode ≠ Mode.chat ∨ chunk = "" then s else
  let gate : Option Session :=
    if s.userMessageCount = 0 then
      (if s.messages.any (fun m => m.role == Role.user)
       then some { s with userMessageCount := 1 } else none)
    else some s
  match gate with
  | none => s
  | some s =>
    let filteredChunk := filterAssistantNoiseChunk stripAnsi noiseLine chunk
    if filteredChunk = "" then s else
    let s := touchSession now s
    let idx := s.lastAssistantIndex
    let target : Option (Nat × Msg) :=
      if idx < 0 then none
      else match s.messages[idx.toNat]? with
        | none => none
        | some m => if m.role = Role.assistant then some (idx.toNat, m) else none
    match target with
    | none =>
      let msgs2 := s.messages ++ [{ role := Role.assistant, content := filteredChunk, ts := now }]
      applyTranscriptBudget
        { s with messages := msgs2, lastAssistantIndex := (msgs2.length : Int) - 1 }
    | some (i, m) =>
      applyTranscriptBudget
        { s with messages := s.messages.set i { m with content := m.content ++ filteredChunk } }

/-! ### The session registry (`SessionManager`) -/

/-- A configured model variant `{id, flag}` (`""` for a missing flag). -/
structure ModelSpec where
  id : String
  flag : String
deriving DecidableEq, Repr

/-- A configured agent (program kind).  An empty `models` list also stands for
a missing `models` array: either way no variant flag is resolved. -/
structure Agent where
  id : String
  name : String
  command : String
  args : List String
  workingDirectory : String
  models : List ModelSpec
deriving DecidableEq, Repr

/-- `_buildStartCommand(agent, modelId)`. -/
def buildStartCommand (agent : Agent) (modelId : String) : String :=
  let cmd := agent.command
  let cmd := if agent.args.length > 0 then cmd ++ " " ++ String.intercalate " " agent.args else cmd
  if modelId ≠ "" ∧ modelId ≠ "default" then
    match agent.models.find? (fun m => m.id == modelId) with
    | some m => if m.flag ≠ "" then cmd ++ " " ++ m.flag else cmd
    | none => cmd
  else cmd

/-- A persisted transcript body (`history/sessions/<user>/<sessionId>.json`). -/
structure TranscriptFile where
  sessionId : String
  agentId : String
  modelId : String
  mode : Mode
  createdAt : Int
  endedAt : Option Int
  messages : List Msg
deriving DecidableEq, Repr

/-- An entry of the runtime `userSessions` list. -/
structure UserSessionItem where
  sessionId : String
  agentId : String
  modelId : String
  mode : Mode
  createdAt : Int
  title : String
  hasTranscript : Bool
  endedAt : Option Int
deriving DecidableEq, Repr

/-- The whole registry state.  `transcripts` is the on-disk per-owner
transcript-body store keyed by `(username, sessionId)` (the directory layout
`sessions/<username>/<sessionId>.json`); `snapshot` is the content of the
`.runtime-active.json` file (`none` = absent). -/
structure SessionManager where
  agents : List (String × Agent)
  sessions : List (String × Session)
  userSessions : List (String × List UserSessionItem)
  activeSessions : List (String × List String)
  hist : HistStore
  transcripts : List ((String × String) × TranscriptFile)
  snapshot : Option (List SnapshotItem)
  inactiveSessionTimeout : JSNum
deriving DecidableEq, Repr

/-- The snapshot record `_persistRuntimeState` writes for a live session. -/
def toSnapshotItem (s : Session) : SnapshotItem :=
  { sessionId := s.sessionId
  , username := s.username
  , agentId := s.agentId
  , modelId := s.modelId
  , mode := s.mode
  , createdAt := s.createdAt
  , lastActivityAt := if s.lastActivityAt = 0 then s.createdAt else s.lastActivityAt
  , title := s.title
  , filesCount := (s.files.length : Int)
  , hasTranscript := if s.mode = Mode.terminal then false else true }

/-- `_persistRuntimeState()`: delete the snapshot file when no session is
live, else rewrite it with one record per live session, in map order. -/
def persistRuntimeStateOf (sessions : List (String × Session)) :
    Option (List SnapshotItem) × List Eff :=
  let active := sessions.map (fun p => toSnapshotItem p.2)
  if active.isEmpty then (none, [Eff.snapshotDelete])
  else (some active, [Eff.snapshotWrite])

/-- `_markUserSessionEnded`: stamp `endedAt` on the first matching runtime
history item of the user. -/
def markFirstEnded : List UserSessionItem → String → Int → List UserSessionItem
  | [], _, _ => []
  | i :: rest, sid, ts =>
    if i.sessionId = sid then { i with endedAt := some ts } :: rest
    else i :: markFirstEnded rest sid ts

/-- `_markUserSessionEnded(username, sessionId, ts)` on the registry index. -/
def markUserSessionEnded (us : List (String × List UserSessionItem))
    (username sessionId : String) (ts : Int) : List (String × List UserSessionItem) :=
  match lookupA us username with
  | none => us
  | some list => setEntry us username (markFirstEnded list sessionId ts)

/-- The raw history entry `_saveHistory` builds from a session (the id falls
back to `` `${username}-${agentId}-${createdAt}` `` when falsy). -/
def sessionHistoryRaw (now : Int) (s : Session) : HistoryItem :=
  { sessionId :=
      if s.sessionId = "" then s.username ++ "-" ++ s.agentId ++ "-" ++ toString s.createdAt
      else s.sessionId
  , agentId := s.agentId
  , modelId := s.modelId
  , mode := s.mode
  , createdAt := s.createdAt
  , endedAt := some now
  , filesCount := (s.files.length : Int)
  , title := s.title
  , hasTranscript := if s.mode = Mode.terminal then false else true
  , endedReason := none }

/-- `_saveHistory(session)`: a no-op once `_historySaved` is set; otherwise
set the one-shot flag, merge the entry into the owner's durable index (replace
by `sessionId` or append) and rewrite it, and — for non-terminal sessions —
write the transcript body.  Returns the updated session object (aliased by
the registry map and the exit callback), stores, and effects. -/
def saveHistory (now : Int) (s : Session) (hist : HistStore)
    (transcripts : List ((String × String) × TranscriptFile)) :
    Session × HistStore × List ((String × String) × TranscriptFile) × List Eff :=
  if s.historySaved then (s, hist, transcripts, []) else
  let s := { s with historySaved := true }
  let rh := readHistoryForUser now hist s.username
  let history := rh.1
  let hist1 := rh.2
  let history2 :=
    match normalizeHistoryItem now (sessionHistoryRaw now s) with
    | none => history
    | some entry =>
      match history.findIdx? (fun h => h.sessionId == entry.sessionId) with
      | some idx => history.set idx entry
      | none => history ++ [entry]
  let hist2 := writeHistoryForUser now hist1 s.username history2
  if s.mode = Mode.terminal then
    (s, hist2, transcripts, [Eff.historyWrite s.username])
  else
    let tfile : TranscriptFile :=
      { sessionId := s.sessionId, agentId := s.agentId, modelId := s.modelId
      , mode := s.mode, createdAt := s.createdAt, endedAt := some now
      , messages := s.messages }
    (s, hist2, setEntry transcripts (s.username, s.sessionId) tfile,
      [Eff.historyWrite s.username, Eff.transcriptWrite s.username s.sessionId])

/-- `destroySession(sessionId)`: a no-op for an unknown id; otherwise kill the
process (tolerating an already-exited one), persist history once, drop the
session from all indices, and rewrite the runtime snapshot. -/
def destroySession (now : Int) (r : SessionManager) (sessionId : String) :
    SessionManager × List Eff :=
  match lookupA r.sessions sessionId with
  | none => (r, [])
  | some s =>
    let saved := saveHistory now s r.hist r.transcripts
    let sessions2 := eraseKey r.sessions sessionId
    let active2 :=
      match lookupA r.activeSessions s.username with
      | none => r.activeSessions
      | some list =>
        setEntry r.activeSessions s.username (list.filter (fun id => id ≠ sessionId))
    let us2 := markUserSessionEnded r.userSessions s.username sessionId now
    let ps := persistRuntimeStateOf sessions2
    ({ r with
        sessions := sessions2, activeSessions := active2, userSessions := us2,
        hist := saved.2.1, transcripts := saved.2.2.1, snapshot := ps.1 },
     Eff.kill sessionId :: (saved.2.2.2 ++ ps.2))

/-- `createSession(username, agentId, modelId, mode, ...)` in state-passing
style: a thrown `ConfigurationError` is `Except.error` with the state passed
through untouched; on success the new session id is returned, the session is
registered in every index, the snapshot is rewritten, and the process spawn
is recorded as an effect (readiness timers are external scheduling). -/
def createSession (now : Int) (r : SessionManager) (username agentId modelId : String)
    (modeRaw : String) : SessionManager × Except String String × List Eff :=
  match lookupA r.agents agentId with
  | none => (r, Except.error ("未知的 Agent: " ++ agentId), [])
  | some _agent =>
    let sessionId := username ++ "-" ++ agentId ++ "-" ++ toString now
    let modelId' := if modelId = "" then "default" else modelId
    let mode := if modeRaw = "terminal" then Mode.terminal else Mode.chat
    let session : Session :=
      { sessionId := sessionId, agentId := agentId, modelId := modelId'
      , username := username, createdAt := now, lastActivityAt := now
      , outputBuffer := "", terminalReplayBuffer := "", terminalInputLine := ""
      , messages := [], lastAssistantIndex := -1, started := false
      , mode := mode, title := agentId ++ " / " ++ modelId'
      , historySaved := false, startCommandSent := false
      , files := [], pendingInputs := [], userMessageCount := 0 }
    let sessions2 := setEntry r.sessions sessionId session
    let active2 :=
      match lookupA r.activeSessions username with
      | none => setEntry r.activeSessions username [sessionId]
      | some list => setEntry r.activeSessions username (list ++ [sessionId])
    let item : UserSessionItem :=
      { sessionId := sessionId, agentId := agentId, modelId := modelId'
      , mode := mode, createdAt := now, title := session.title
      , hasTranscript := if mode = Mode.terminal then false else true, endedAt := none }
    let us2 :=
      match lookupA r.userSessions username with
      | none => setEntry r.userSessions username [item]
      | some list => setEntry r.userSessions username (list ++ [item])
    let ps := persistRuntimeStateOf sessions2
    ({ r with
        sessions := sessions2, activeSessions := active2, userSessions := us2,
        snapshot := ps.1 },
     Except.ok sessionId, Eff.spawn sessionId :: ps.2)

/-- `session.lastActivityAt || session.createdAt || now` in the reaper. -/
def lastActivityOf (now : Int) (s : Session) : Int :=
  if s.lastActivityAt ≠ 0 then s.lastActivityAt
  else if s.createdAt ≠ 0 then s.createdAt
  else now

/-- One iteration of the reaper loop: destroy the stale session, then restamp
the owner's runtime history item. -/
def reapOne (now : Int) (acc : SessionManager × List Eff) (sid : String) :
    SessionManager × List Eff :=
  let sBefore := lookupA acc.1.sessions sid
  let d := destroySession now acc.1 sid
  let r3 := match sBefore with
    | none => d.1
    | some s =>
      { d.1 with userSessions := markUserSessionEnded d.1.userSessions s.username sid now }
  (r3, acc.2 ++ d.2)

/-- `_cleanupInactiveSessions()`: no sweep at all when the configured timeout
is not a finite positive number; otherwise destroy every session idle past the
threshold (strictly `now - last > timeout`) through `destroySession`, then
restamp the runtime history item. -/
def cleanupInactiveSessions (now : Int) (r : SessionManager) :
    SessionManager × List Eff :=
  match r.inactiveSessionTimeout with
  | JSNum.num t =>
    if t ≤ 0 then (r, []) else
    let staleIds := (r.sessions.filter (fun p => now - lastActivityOf now p.2 > t)).map
      (fun p => p.1)
    staleIds.foldl (reapOne now) (r, [])
  | _ => (r, [])

/-- The value `getSessionTranscript` returns: a view of the live session, or
the parsed stored transcript file. -/
inductive TranscriptResult where
  | live (sessionId agentId modelId : String) (mode : Mode) (createdAt : Int)
      (title : String) (messages : List Msg)
  | stored (f : TranscriptFile)
deriving DecidableEq, Repr

/-- The disk half of `getSessionTranscript`: read
`sessions/<username>/<sessionId>.json`; missing or unparsable files and
terminal-mode bodies read as `null`. -/
def readTranscriptFile (r : SessionManager) (username sessionId : String) :
    Option TranscriptResult :=
  match lookupA r.transcripts (username, sessionId) with
  | none => none
  | some data =>
    if data.mode = Mode.terminal then none else some (TranscriptResult.stored data)

/-- `getSessionTranscript(username, sessionId)`. -/
def getSessionTranscript (r : SessionManager) (username sessionId : String) :
    Option TranscriptResult :=
  match lookupA r.sessions sessionId with
  | some active =>
    if active.username = username then
      (if active.mode = Mode.terminal then none
       else some (TranscriptResult.live active.sessionId active.agentId active.modelId
         active.mode active.createdAt active.title active.messages))
    else readTranscriptFile r username sessionId
  | none => readTranscriptFile r username sessionId

/-! ### Output fan-out (the `onData` broadcast loop)

A subscriber callback is modeled by its observable behavior: whether it
throws on a given chunk.  An invocation *is* a delivery — the callback
receives the chunk and then either returns or throws; the source wraps each
invocation in `try { fn(data) } catch (e) { /* ignore */ }`, which the model
renders by computing the outcome and discarding it before moving on to the
next subscriber. -/

/-- A subscriber callback, by behavior. -/
structure Subscriber where
  throwsOn : String → Bool

/-- Outcome of one callback invocation. -/
inductive CbOutcome where
  | ok
  | thrown
deriving DecidableEq, Repr

/-- Invoke one subscriber callback on a chunk. -/
def invokeSubscriber (sub : Subscriber) (chunk : String) : CbOutcome :=
  if sub.throwsOn chunk then CbOutcome.thrown else CbOutcome.ok

/-- The per-chunk broadcast loop, logging each delivery as
`(subscriber index, chunk)`; a thrown callback is caught and ignored. -/
def fanoutChunk (subs : List Subscriber) (chunk : String) (i0 : Nat) :
    List (Nat × String) :=
  match subs with
  | [] => []
  | sub :: rest =>
    let _outcome := invokeSubscriber sub chunk
    (i0, chunk) :: fanoutChunk rest chunk (i0 + 1)

/-- Processing a whole output sequence: per chunk, broadcast to every
subscriber in set order, then hand the chunk to the session's own `onData`
callback (the second component). -/
def runFanout (subs : List Subscriber) : List String → List (Nat × String) × List String
  | [] => ([], [])
  | c :: cs =>
    let rest := runFanout subs cs
    (fanoutChunk subs c 0 ++ rest.1, c :: rest.2)

/-! ### Session lifetime events (for the one-shot history guard)

`destroySession` and the pty `onExit` handler both call `_saveHistory` on the
*same* session object: the registry map entry and the exit-callback closure
alias it.  `LifeState` makes the aliasing explicit: `sess` is the shared
object, `inMap` whether the registry still holds it (the guard `destroySession`
checks), and the exit callback can fire at any point regardless. -/

/-- A session-lifetime event hitting `_saveHistory`. -/
inductive LifeEvent where
  | destroy
  | exitCb
deriving DecidableEq, Repr

/-- The aliased state shared by the registry and the exit-callback closure. -/
structure LifeState where
  sess : Session
  inMap : Bool
  hist : HistStore
  transcripts : List ((String × String) × TranscriptFile)

/-- One lifetime event: `destroy` follows `destroySession` (guarded by map
membership, kills the process, saves, removes from the map); `exitCb` follows
the `onExit` handler (saves on the aliased object, removes from the map). -/
def stepLife (now : Int) (st : LifeState) : LifeEvent → LifeState × List Eff
  | LifeEvent.destroy =>
    if st.inMap then
      let sv := saveHistory now st.sess st.hist st.transcripts
      ({ sess := sv.1, inMap := false, hist := sv.2.1, transcripts := sv.2.2.1 },
        Eff.kill st.sess.sessionId :: sv.2.2.2)
    else (st, [])
  | LifeEvent.exitCb =>
    let sv := saveHistory now st.sess st.hist st.transcripts
    ({ sess := sv.1, inMap := false, hist := sv.2.1, transcripts := sv.2.2.1 }, sv.2.2.2)

/-- Run a sequence of lifetime events, accumulating effects. -/
def runLife (now : Int) : LifeState → List LifeEvent → LifeState × List Eff
  | st, [] => (st, [])
  | st, e :: rest =>
    let step := stepLife now st e
    let cont := runLife now step.1 rest
    (cont.1, step.2 ++ cont.2)

/-- Number of durable history writes in an effect trace. -/
def countHistoryWrites (effs : List Eff) : Nat :=
  effs.countP (fun e => match e with | Eff.historyWrite _ => true | _ => false)

/-! ## Verification

Shared fixtures and helper lemmas, followed by one theorem per specification
claim (with a witness instantiation whenever the theorem carries hypotheses). -/

/-- The session literal `createSession` registers (a fixture for concrete
instantiations). -/
def freshSession (now : Int) (username agentId modelId : String) (mode : Mode) : Session :=
  { sessionId := username ++ "-" ++ agentId ++ "-" ++ toString now
  , agentId := agentId, modelId := modelId, username := username
  , createdAt := now, lastActivityAt := now
  , outputBuffer := "", terminalReplayBuffer := "", terminalInputLine := ""
  , messages := [], lastAssistantIndex := -1, started := false
  , mode := mode, title := agentId ++ " / " ++ modelId
  , historySaved := false, startCommandSent := false
  , files := [], pendingInputs := [], userMessageCount := 0 }

/-- A registry with no agents, sessions or history. -/
def emptyManager : SessionManager :=
  { agents := [], sessions := [], userSessions := [], activeSessions := []
  , hist := { files := [], cache := [] }, transcripts := [], snapshot := none
  , inactiveSessionTimeout := JSNum.num 1800000 }

/-! ### Output fan-out isolation -/

/-- The chunks a given subscriber index received, in order. -/
def deliveredTo (i : Nat) (log : List (Nat × String)) : List String :=
  (log.filter (fun d => d.1 == i)).map (fun d => d.2)

/-- A subscriber whose callback throws on every invocation. -/
def throwingSub : Subscriber := { throwsOn := fun _ => true }

/-- A subscriber whose callback always returns normally. -/
def quietSub : Subscriber := { throwsOn := fun _ => false }

/-- An input submitted through the public API: a raw `sendInput` chunk or a
`sendChatInput` chat message. -/
inductive UserInput where
  | raw (text : String)
  | chat (text : String)
deriving DecidableEq, Repr

/-- What the process will eventually receive for a submitted input
(`sendChatInput` appends the line terminator). -/
def encodeInput : UserInput → String
  | UserInput.raw t => t
  | UserInput.chat t => t ++ "\r"

/-- Dispatch one submitted input to the matching API operation. -/
def submitOne (now : Int) (s : Session) : UserInput → Session × List String
  | UserInput.raw t => sendInput now s t
  | UserInput.chat t => sendChatInput now s t

/-- Submit a sequence of inputs in order, collecting all process writes. -/
def submitAll (now : Int) : Session → List UserInput → Session × List String
  | s, [] => (s, [])
  | s, i :: rest =>
    let one := submitOne now s i
    let cont := submitAll now one.1 rest
    (cont.1, one.2 ++ cont.2)

/-! ### Pacing of queued versus live chat delivery -/

/-- A fresh Gemini chat session (C5 fixture). -/
def geminiChatSession : Session := freshSession 1 "alice" "gemini" "default" Mode.chat

/-- The Gemini session after one chat input queued before readiness. -/
def geminiQueuedSession : Session := (sendChatInput 10 geminiChatSession "0123456789A").1

/-- A lifetime fixture: a fresh session, still registered, empty stores. -/
def lifeStart : LifeState :=
  { sess := freshSession 1 "alice" "codex" "default" Mode.chat
  , inMap := true, hist := { files := [], cache := [] }, transcripts := [] }

/-! ### Chat-mode transcript gating -/

/-- Total content length of a transcript. -/
def sumContentLengths (msgs : List Msg) : Nat :=
  (msgs.map (fun m => m.content.length)).sum

/-- A chat session that has recorded one user message (C6 fixture). -/
def chatSessionWithUser : Session :=
  recordUserMessage 2 (freshSession 1 "alice" "codex" "default" Mode.chat) "question"

/-- A registry holding one live chat session owned by alice (C10 fixture). -/
def aliceManager : SessionManager :=
  { emptyManager with
      sessions := [("alice-codex-1", freshSession 1 "alice" "codex" "default" Mode.chat)] }

/-- A session already idle past the threshold (C9 fixture). -/
def staleSession : Session :=
  { freshSession 1 "alice" "codex" "default" Mode.chat with lastActivityAt := 5 }

/-- A recently active session (C9 fixture). -/
def activeSession : Session :=
  { freshSession 2 "bob" "codex" "default" Mode.chat with lastActivityAt := 995 }

/-- A registry with one stale and one active session and a 10-unit idle
threshold (C9 fixture). -/
def reapManager : SessionManager :=
  { emptyManager with
      sessions := [("alice-codex-1", staleSession), ("bob-codex-2", activeSession)]
    , inactiveSessionTimeout := JSNum.num 10 }

/-! ### Crash recovery: normalization stability -/

/-- `sessionId`s of a history list are pairwise distinct. -/
def SidsNodup (l : List HistoryItem) : Prop :=
  (l.map (fun e => e.sessionId)).Nodup

/-- An entry is a fixed point of normalization. -/
def NormStable (now : Int) (e : HistoryItem) : Prop :=
  normalizeHistoryItem now e = some e

/-- A well-formed history list: deduplicated and normalization-stable. -/
def CleanHist (now : Int) (l : List HistoryItem) : Prop :=
  SidsNodup l ∧ ∀ e ∈ l, NormStable now e

/-- The recovered-entry property: the owner's readable history holds exactly
one entry for the session id, and it is marked with the restart reason. -/
def goodEntry (now : Int) (st : HistStore) (u sid : String) : Prop :=
  (histRead now st u).countP (fun e => e.sessionId == sid) = 1 ∧
  ∀ e ∈ histRead now st u, e.sessionId = sid → e.endedReason = some "server_restart"

/-- A previously-live session record for recovery (C4 fixture). -/
def recoverItem : SnapshotItem :=
  { sessionId := "alice-codex-1", username := "alice", agentId := "codex"
  , modelId := "default", mode := Mode.chat, createdAt := 1, lastActivityAt := 1
  , title := "t", filesCount := 0, hasTranscript := true }

/-- A normalized history entry filling the owner's 80-entry cap (C4
counterexample fixture). -/
def cappedHistoryEntry (i : Nat) : HistoryItem :=
  { sessionId := "s" ++ toString i, agentId := "a", modelId := "m", mode := Mode.chat
  , createdAt := (100 + i : Int), endedAt := none, filesCount := 0, title := "t"
  , hasTranscript := true, endedReason := none }

/-- A history store whose owner already holds 80 newer entries (C4
counterexample fixture). -/
def cappedHistoryStore : HistStore :=
  { files := [("alice", (List.range 80).map cappedHistoryEntry)], cache := [] }

/-- A long-lived session (old `createdAt`) live at crash time (C4
counterexample fixture). -/
def oldLiveItem : SnapshotItem :=
  { sessionId := "old", username := "alice", agentId := "a", modelId := "m"
  , mode := Mode.chat, createdAt := 1, lastActivityAt := 900, title := "t"
  , filesCount := 0, hasTranscript := true }

theorem lookupA_eraseKey_self {κ α : Type} [DecidableEq κ] (l : List (κ × α)) (k : κ) :
    lookupA (eraseKey l k) k = none := by
  induction l with
  | nil => rfl
  | cons p rest ih =>
    by_cases h : p.1 = k
    · simpa [eraseKey, List.filter_cons, h] using ih
    · simpa [eraseKey, List.filter_cons, h, lookupA] using ih

theorem lookupA_eraseKey_ne {κ α : Type} [DecidableEq κ] (l : List (κ × α)) (k k' : κ)
    (h : k' ≠ k) : lookupA (eraseKey l k) k' = lookupA l k' := by
  induction l with
  | nil => rfl
  | cons p rest ih =>
    by_cases hp : p.1 = k
    · have hne : ¬ p.1 = k' := fun hc => h (by rw [← hc]; exact hp)
      have he : eraseKey (p :: rest) k = eraseKey rest k := by
        simp [eraseKey, List.filter_cons, hp]
      rw [he, ih]
      simp [lookupA, hne]
    · have he : eraseKey (p :: rest) k = p :: eraseKey rest k := by
        simp [eraseKey, List.filter_cons, hp]
      rw [he]
      by_cases hp' : p.1 = k'
      · simp [lookupA, hp']
      · simp [lookupA, hp', ih]

theorem lookupA_setEntry_self {κ α : Type} [DecidableEq κ] (l : List (κ × α)) (k : κ) (v : α) :
    lookupA (setEntry l k v) k = some v := by
  induction l with
  | nil => simp [setEntry, lookupA]
  | cons p rest ih =>
    by_cases h : p.1 = k
    · simp [setEntry, h, lookupA]
    · simp [setEntry, h, lookupA, ih]

theorem lookupA_setEntry_ne {κ α : Type} [DecidableEq κ] (l : List (κ × α)) (k k' : κ) (v : α)
    (h : k' ≠ k) : lookupA (setEntry l k v) k' = lookupA l k' := by
  induction l with
  | nil =>
    simp only [setEntry, lookupA]
    exact if_neg (fun hc => h hc.symm)
  | cons p rest ih =>
    by_cases hp : p.1 = k
    · have h1 : ¬ k = k' := fun hc => h hc.symm
      have h2 : ¬ p.1 = k' := by rw [hp]; exact h1
      simp [setEntry, hp, lookupA, h1, h2]
    · simp [setEntry, hp, lookupA, ih]

/-! ### Registry lookup behavior of `destroySession` -/

theorem lookup_destroySession_sessions (now : Int) (r : SessionManager) (sid x : String) :
    lookupA (destroySession now r sid).1.sessions x =
      if x = sid then none else lookupA r.sessions x := by
  cases hl : lookupA r.sessions sid with
  | none =>
    by_cases hx : x = sid
    · subst hx; simp [destroySession, hl]
    · simp [destroySession, hl, hx]
  | some s =>
    by_cases hx : x = sid
    · subst hx; simp [destroySession, hl, lookupA_eraseKey_self]
    · simp [destroySession, hl, hx, lookupA_eraseKey_ne _ _ _ hx]

theorem destroySession_of_absent (now : Int) (r : SessionManager) (sid : String)
    (h : lookupA r.sessions sid = none) : destroySession now r sid = (r, []) := by
  simp [destroySession, h]

/-- C3.  `destroySession` is idempotent: after one call the session is gone
from the registry map, so a second call on the same id finds nothing, changes
no state (sessions map, per-user lists, durable history, snapshot) and
produces no effect. -/
theorem destroySession_idempotent (now now2 : Int) (r : SessionManager) (sid : String) :
    destroySession now2 (destroySession now r sid).1 sid = ((destroySession now r sid).1, []) := by
  apply destroySession_of_absent
  simpa using lookup_destroySession_sessions now r sid sid

/-- C7.  `createSession` with an unknown `agentId` throws the configuration
error before any other step: the state is returned untouched and the effect
trace is empty — in particular no process spawn and no snapshot write. -/
theorem createSession_unknown_agent (now : Int) (r : SessionManager)
    (username agentId modelId modeRaw : String)
    (h : lookupA r.agents agentId = none) :
    createSession now r username agentId modelId modeRaw =
      (r, Except.error ("未知的 Agent: " ++ agentId), []) := by
  simp [createSession, h]

/-- Witness for C7 at a concrete registry with no configured agents. -/
theorem createSession_unknown_agent_witness :
    createSession 1 emptyManager "alice" "nosuch" "" "chat" =
      (emptyManager, Except.error ("未知的 Agent: " ++ "nosuch"), []) :=
  createSession_unknown_agent 1 emptyManager "alice" "nosuch" "" "chat" rfl

theorem fanoutChunk_filter (chunk : String) (i : Nat) :
    ∀ (subs : List Subscriber) (i0 : Nat),
      (fanoutChunk subs chunk i0).filter (fun d => d.1 == i) =
        if i0 ≤ i ∧ i < i0 + subs.length then [(i, chunk)] else [] := by
  intro subs
  induction subs with
  | nil => intro i0; simp [fanoutChunk]
  | cons sub rest ih =>
    intro i0
    simp only [fanoutChunk, List.filter_cons]
    rw [ih (i0 + 1)]
    by_cases hi : i0 = i
    · subst hi
      have h1 : ¬ (i0 + 1 ≤ i0 ∧ i0 < i0 + 1 + rest.length) := by omega
      have h2 : i0 ≤ i0 ∧ i0 < i0 + (sub :: rest).length := by
        simp only [List.length_cons]; omega
      simp [h1, h2]
    · have hne : ((i0, chunk).1 == i) = false := beq_false_of_ne hi
      have hiff : (i0 + 1 ≤ i ∧ i < i0 + 1 + rest.length) ↔
          (i0 ≤ i ∧ i < i0 + (sub :: rest).length) := by
        simp only [List.length_cons]; omega
      simp only [hne, Bool.false_eq_true, if_false]
      by_cases hc : i0 + 1 ≤ i ∧ i < i0 + 1 + rest.length
      · rw [if_pos hc, if_pos (hiff.mp hc)]
      · rw [if_neg hc, if_neg (fun hx => hc (hiff.mpr hx))]

/-- C8.  Fan-out isolation: for any subscriber set and any behavior of the
callbacks (including ones that throw on every chunk), every subscriber is
handed every output chunk in process order, and the session's own `onData`
callback (the tail of the read loop) still receives the full ordered stream —
a thrown callback is caught and never disturbs the others or the loop. -/
theorem fanout_isolation (subs : List Subscriber) (chunks : List String) (i : Nat)
    (h : i < subs.length) :
    deliveredTo i (runFanout subs chunks).1 = chunks ∧
      (runFanout subs chunks).2 = chunks := by
  induction chunks with
  | nil => exact ⟨rfl, rfl⟩
  | cons c cs ih =>
    refine ⟨?_, ?_⟩
    · have hc : 0 ≤ i ∧ i < 0 + subs.length := ⟨Nat.zero_le i, by omega⟩
      simp only [runFanout, deliveredTo, List.filter_append, List.map_append]
      rw [fanoutChunk_filter c i subs 0, if_pos hc]
      have := ih.1
      simp only [deliveredTo] at this
      rw [this]
      rfl
    · simp only [runFanout]
      rw [ih.2]

/-- Witness for C8: next to an always-throwing subscriber, the second
subscriber and the session callback still receive both chunks in order. -/
theorem fanout_isolation_witness :
    deliveredTo 1 (runFanout [throwingSub, quietSub] ["a", "b"]).1 = ["a", "b"] ∧
      (runFanout [throwingSub, quietSub] ["a", "b"]).2 = ["a", "b"] :=
  fanout_isolation [throwingSub, quietSub] ["a", "b"] 1 (by decide)

/-! ### Input queue FIFO behavior -/

theorem appendTerminalInputReplay_started (s : Session) (c : String) :
    (appendTerminalInputReplay s c).started = s.started := by
  unfold appendTerminalInputReplay
  repeat' split
  all_goals rfl

theorem appendTerminalInputReplay_pendingInputs (s : Session) (c : String) :
    (appendTerminalInputReplay s c).pendingInputs = s.pendingInputs := by
  unfold appendTerminalInputReplay
  repeat' split
  all_goals rfl

theorem appendTerminalInputReplay_agentId (s : Session) (c : String) :
    (appendTerminalInputReplay s c).agentId = s.agentId := by
  unfold appendTerminalInputReplay
  repeat' split
  all_goals rfl

theorem capPendingInputs_suffix (l : List String) : capPendingInputs l <:+ l := by
  unfold capPendingInputs
  split
  · exact List.drop_suffix _ _
  · exact List.suffix_refl l

theorem capPendingInputs_of_le (l : List String) (h : l.length ≤ 200) :
    capPendingInputs l = l := by
  unfold capPendingInputs
  rw [if_neg]
  omega

theorem suffix_append_compat {α : Type} {l1 l2 : List α} (t : List α) (h : l1 <:+ l2) :
    l1 ++ t <:+ l2 ++ t := by
  obtain ⟨p, rfl⟩ := h
  exact ⟨p, (List.append_assoc p l1 t).symm⟩

theorem submitOne_not_started (now : Int) (s : Session) (i : UserInput)
    (h : s.started = false) :
    (submitOne now s i).2 = [] ∧ (submitOne now s i).1.started = false ∧
      (submitOne now s i).1.pendingInputs =
        capPendingInputs (s.pendingInputs ++ [encodeInput i]) := by
  cases i with
  | raw t =>
    simp [submitOne, sendInput, touchSession, encodeInput,
      appendTerminalInputReplay_started, appendTerminalInputReplay_pendingInputs, h]
  | chat t =>
    simp [submitOne, sendChatInput, touchSession, encodeInput,
      appendTerminalInputReplay_started, appendTerminalInputReplay_pendingInputs, h]

theorem submitAll_queue (now : Int) :
    ∀ (inputs : List UserInput) (s : Session), s.started = false →
      (submitAll now s inputs).2 = [] ∧
      (submitAll now s inputs).1.started = false ∧
      (submitAll now s inputs).1.pendingInputs <:+
        s.pendingInputs ++ inputs.map encodeInput ∧
      (s.pendingInputs.length + inputs.length ≤ 200 →
        (submitAll now s inputs).1.pendingInputs =
          s.pendingInputs ++ inputs.map encodeInput) := by
  intro inputs
  induction inputs with
  | nil =>
    intro s h
    exact ⟨rfl, h, by simp [submitAll], fun _ => by simp [submitAll]⟩
  | cons i rest ih =>
    intro s h
    obtain ⟨hw1, hst1, hpi1⟩ := submitOne_not_started now s i h
    obtain ⟨hw2, hst2, hsfx2, hex2⟩ := ih (submitOne now s i).1 hst1
    refine ⟨?_, ?_, ?_, ?_⟩
    · simp only [submitAll]
      rw [hw1, hw2]
      rfl
    · simpa only [submitAll] using hst2
    · simp only [submitAll]
      refine hsfx2.trans ?_
      rw [hpi1]
      have h1 : capPendingInputs (s.pendingInputs ++ [encodeInput i]) ++ rest.map encodeInput <:+
          (s.pendingInputs ++ [encodeInput i]) ++ rest.map encodeInput :=
        suffix_append_compat _ (capPendingInputs_suffix _)
      simpa [List.append_assoc] using h1
    · intro hlen
      simp only [submitAll]
      have hcap : capPendingInputs (s.pendingInputs ++ [encodeInput i]) =
          s.pendingInputs ++ [encodeInput i] := by
        apply capPendingInputs_of_le
        simp only [List.length_append, List.length_cons, List.length_nil]
        simp only [List.length_cons] at hlen
        omega
      have hlen2 : (submitOne now s i).1.pendingInputs.length + rest.length ≤ 200 := by
        rw [hpi1, hcap]
        simp only [List.length_append, List.length_cons, List.length_nil]
        simp only [List.length_cons] at hlen
        omega
      rw [hex2 hlen2, hpi1, hcap]
      simp [List.append_assoc]

theorem markSessionReady_flushes (now : Int) (s : Session) (h : s.started = false) :
    (markSessionReady now s).2 = s.pendingInputs := by
  unfold markSessionReady flushPendingInputs
  rw [if_neg (by simp [h])]
  split
  · next hemp =>
    simp only at hemp
    rw [List.isEmpty_iff] at hemp
    simp [hemp]
  · rfl

/-- C1.  Inputs submitted through `sendInput`/`sendChatInput` while the
session is not yet ready are never written to the process; on the transition
to ready the flush writes exactly the queue, whose content is an
order-preserving suffix of the submitted sequence (the bounded queue only
ever drops oldest entries), and is the whole submitted sequence verbatim
whenever the 200-entry bound is respected. -/
theorem pending_inputs_fifo (now now2 : Int) (s : Session) (inputs : List UserInput)
    (h : s.started = false) :
    (submitAll now s inputs).2 = [] ∧
    (markSessionReady now2 (submitAll now s inputs).1).2 =
      (submitAll now s inputs).1.pendingInputs ∧
    (submitAll now s inputs).1.pendingInputs <:+
      s.pendingInputs ++ inputs.map encodeInput ∧
    (s.pendingInputs.length + inputs.length ≤ 200 →
      (markSessionReady now2 (submitAll now s inputs).1).2 =
        s.pendingInputs ++ inputs.map encodeInput) := by
  obtain ⟨hw, hst, hsfx, hex⟩ := submitAll_queue now inputs s h
  refine ⟨hw, markSessionReady_flushes now2 _ hst, hsfx, ?_⟩
  intro hlen
  rw [markSessionReady_flushes now2 _ hst]
  exact hex hlen

/-- Witness for C1: a fresh chat-mode session queues one raw and one chat
input and flushes them, in order, only at the ready transition. -/
theorem pending_inputs_fifo_witness :
    (submitAll 5 (freshSession 1 "alice" "codex" "default" Mode.chat)
        [UserInput.chat "hello", UserInput.raw "x"]).2 = [] ∧
    (markSessionReady 6 (submitAll 5 (freshSession 1 "alice" "codex" "default" Mode.chat)
        [UserInput.chat "hello", UserInput.raw "x"]).1).2 = ["hello" ++ "\r", "x"] := by
  have h := pending_inputs_fifo 5 6 (freshSession 1 "alice" "codex" "default" Mode.chat)
    [UserInput.chat "hello", UserInput.raw "x"] rfl
  refine ⟨h.1, ?_⟩
  have := h.2.2.2 (by decide)
  simpa using this

/-- C5 counterexample.  The claim says the flush on the ready transition
delivers each queued chunk with the same per-program pacing as live delivery;
for this concrete Gemini session with one queued 12-character chat message the
flush performs a single direct write, whereas live pacing would write two
simulated-typing batches — the write sequences differ. -/
theorem flush_pacing_counterexample :
    (markSessionReady 11 geminiQueuedSession).2 ≠
      (geminiQueuedSession.pendingInputs.map (fun chunk =>
        if geminiQueuedSession.agentId = "gemini" then simulateTyping chunk
        else [chunk])).flatten := by
  decide

/-- C5 amended.  Order is preserved on flush, but pacing is not: the flush on
the ready transition always writes each queued chunk as one direct write,
regardless of `programKind`, while the simulated-typing batching applies only
to live Gemini chat delivery. -/
theorem flush_direct_writes (now : Int) (s : Session) (h : s.started = false) :
    (markSessionReady now s).2 = s.pendingInputs ∧
    (∀ (now2 : Int) (s2 : Session) (text : String), s2.started = true →
      (sendChatInput now2 s2 text).2 =
        (if s2.agentId = "gemini" then simulateTyping (text ++ "\r")
         else [text ++ "\r"])) := by
  refine ⟨markSessionReady_flushes now s h, ?_⟩
  intro now2 s2 text h2
  simp only [sendChatInput, touchSession, appendTerminalInputReplay_started,
    appendTerminalInputReplay_agentId, h2, not_true, Bool.not_eq_true, if_false,
    Bool.false_eq_true]
  split <;> rfl

/-- Witness for C5 (amended): the queued Gemini chat message flushes as one
direct write, while the same message delivered live is written in two paced
batches. -/
theorem flush_direct_writes_witness :
    (markSessionReady 11 geminiQueuedSession).2 = geminiQueuedSession.pendingInputs ∧
      (sendChatInput 12 (markSessionReady 11 geminiQueuedSession).1 "0123456789A").2 =
        simulateTyping ("0123456789A" ++ "\r") := by
  have h := flush_direct_writes 11 geminiQueuedSession (by decide)
  refine ⟨h.1, ?_⟩
  have h2 := h.2 12 (markSessionReady 11 geminiQueuedSession).1 "0123456789A" (by decide)
  rw [h2, if_pos (by decide)]

/-! ### The one-shot history guard -/

theorem saveHistory_noop_of_saved (now : Int) (s : Session) (hist : HistStore)
    (tr : List ((String × String) × TranscriptFile)) (hs : s.historySaved = true) :
    saveHistory now s hist tr = (s, hist, tr, []) := by
  simp [saveHistory, hs]

theorem saveHistory_of_unsaved (now : Int) (s : Session) (hist : HistStore)
    (tr : List ((String × String) × TranscriptFile)) (hs : s.historySaved = false) :
    (saveHistory now s hist tr).1.historySaved = true ∧
      countHistoryWrites (saveHistory now s hist tr).2.2.2 = 1 := by
  unfold saveHistory
  rw [if_neg (by simp [hs])]
  by_cases hmode : s.mode = Mode.terminal
  · simp [hmode, countHistoryWrites]
  · simp [hmode, countHistoryWrites]

theorem stepLife_of_saved (now : Int) (st : LifeState) (e : LifeEvent)
    (hs : st.sess.historySaved = true) :
    (stepLife now st e).1.sess.historySaved = true ∧
      countHistoryWrites (stepLife now st e).2 = 0 := by
  cases e with
  | destroy =>
    by_cases hm : st.inMap
    · simp [stepLife, hm, saveHistory_noop_of_saved now st.sess st.hist st.transcripts hs,
        countHistoryWrites, hs]
    · simp [stepLife, hm, hs, countHistoryWrites]
  | exitCb =>
    simp [stepLife, saveHistory_noop_of_saved now st.sess st.hist st.transcripts hs,
      countHistoryWrites, hs]

theorem stepLife_of_unsaved (now : Int) (st : LifeState) (e : LifeEvent)
    (hs : st.sess.historySaved = false) :
    ((stepLife now st e).1.sess.historySaved = false ∧
        countHistoryWrites (stepLife now st e).2 = 0) ∨
      ((stepLife now st e).1.sess.historySaved = true ∧
        countHistoryWrites (stepLife now st e).2 ≤ 1) := by
  cases e with
  | destroy =>
    by_cases hm : st.inMap
    · right
      obtain ⟨h1, h2⟩ := saveHistory_of_unsaved now st.sess st.hist st.transcripts hs
      refine ⟨by simpa [stepLife, hm] using h1, ?_⟩
      simp only [countHistoryWrites] at h2 ⊢
      simp [stepLife, hm, List.countP_cons, h2]
    · left; simp [stepLife, hm, hs, countHistoryWrites]
  | exitCb =>
    right
    obtain ⟨h1, h2⟩ := saveHistory_of_unsaved now st.sess st.hist st.transcripts hs
    exact ⟨by simpa [stepLife] using h1, by simpa [stepLife] using h2.le⟩

theorem countHistoryWrites_append (a b : List Eff) :
    countHistoryWrites (a ++ b) = countHistoryWrites a + countHistoryWrites b := by
  simp [countHistoryWrites, List.countP_append]

theorem runLife_of_saved (now : Int) :
    ∀ (evs : List LifeEvent) (st : LifeState), st.sess.historySaved = true →
      countHistoryWrites (runLife now st evs).2 = 0 ∧
        (runLife now st evs).1.sess.historySaved = true := by
  intro evs
  induction evs with
  | nil => intro st hs; exact ⟨rfl, hs⟩
  | cons e rest ih =>
    intro st hs
    obtain ⟨h1, h2⟩ := stepLife_of_saved now st e hs
    obtain ⟨h3, h4⟩ := ih (stepLife now st e).1 h1
    refine ⟨?_, by simpa [runLife] using h4⟩
    simp only [runLife]
    rw [countHistoryWrites_append, h2, h3]

theorem runLife_writes_le_one (now : Int) :
    ∀ (evs : List LifeEvent) (st : LifeState), st.sess.historySaved = false →
      countHistoryWrites (runLife now st evs).2 ≤ 1 := by
  intro evs
  induction evs with
  | nil => intro st _; simp [runLife, countHistoryWrites]
  | cons e rest ih =>
    intro st hs
    simp only [runLife]
    rw [countHistoryWrites_append]
    rcases stepLife_of_unsaved now st e hs with ⟨h1, h2⟩ | ⟨h1, h2⟩
    · have := ih (stepLife now st e).1 h1
      omega
    · have := (runLife_of_saved now rest (stepLife now st e).1 h1).1
      omega

theorem runLife_append (now : Int) :
    ∀ (pre suf : List LifeEvent) (st : LifeState),
      (runLife now st (pre ++ suf)).1 = (runLife now (runLife now st pre).1 suf).1 := by
  intro pre
  induction pre with
  | nil => intro suf st; rfl
  | cons e rest ih =>
    intro suf st
    simp only [List.cons_append, runLife]
    exact ih suf (stepLife now st e).1

/-- C2.  The one-shot history guard: starting from an unsaved session, any
sequence of `destroySession` invocations and process-exit callbacks on the
same (aliased) session object performs at most one durable history write, and
once `_historySaved` has become true along any prefix it stays true — the
flag goes false→true at most once over the session's lifetime. -/
theorem historySaved_one_shot (now : Int) (st : LifeState) (evs : List LifeEvent)
    (h : st.sess.historySaved = false) :
    countHistoryWrites (runLife now st evs).2 ≤ 1 ∧
    (∀ pre suf, evs = pre ++ suf →
      (runLife now st pre).1.sess.historySaved = true →
      (runLife now st evs).1.sess.historySaved = true) := by
  refine ⟨runLife_writes_le_one now evs st h, ?_⟩
  intro pre suf hsplit hsaved
  rw [hsplit, runLife_append now pre suf st]
  exact (runLife_of_saved now suf (runLife now st pre).1 hsaved).2

/-- Witness for C2: destroying twice and then receiving the exit callback
performs exactly one durable history write in total. -/
theorem historySaved_one_shot_witness :
    countHistoryWrites (runLife 9 lifeStart
      [LifeEvent.destroy, LifeEvent.destroy, LifeEvent.exitCb]).2 ≤ 1 :=
  (historySaved_one_shot 9 lifeStart
    [LifeEvent.destroy, LifeEvent.destroy, LifeEvent.exitCb] rfl).1

theorem takeUnderBudget_all : ∀ (msgs : List Msg) (total : Nat),
    total + sumContentLengths msgs ≤ 2000000 → takeUnderBudget msgs total = msgs := by
  intro msgs
  induction msgs with
  | nil => intro total _; rfl
  | cons m rest ih =>
    intro total h
    have hsum : sumContentLengths (m :: rest) =
        m.content.length + sumContentLengths rest := by
      simp [sumContentLengths]
    rw [hsum] at h
    unfold takeUnderBudget
    rw [if_neg (by omega), ih (total + m.content.length) (by omega)]

theorem sumContentLengths_reverse (msgs : List Msg) :
    sumContentLengths msgs.reverse = sumContentLengths msgs := by
  simp [sumContentLengths, List.map_reverse, List.sum_reverse]

theorem truncateMessages_id (msgs : List Msg) (h : sumContentLengths msgs ≤ 2000000) :
    truncateMessages msgs = msgs := by
  unfold truncateMessages
  rw [takeUnderBudget_all msgs.reverse 0 (by rw [sumContentLengths_reverse]; omega),
    List.reverse_reverse]

theorem applyTranscriptBudget_id (s : Session) (h : sumContentLengths s.messages ≤ 2000000) :
    applyTranscriptBudget s = s := by
  unfold applyTranscriptBudget
  rw [truncateMessages_id s.messages h]
  simp

/-- C6.  The chat transcript gate: while no user message has been recorded
(`userMessageCount` zero and no user-role message in the transcript), every
process output chunk is discarded outright — the session is returned
unchanged; once at least one user message exists, a chunk whose filtered form
is nonempty is accumulated: with the coalescing pointer reset (as
`recordUserMessage` leaves it) and the byte budget not exceeded, a new
assistant message carrying exactly the filtered chunk is appended. -/
theorem chat_transcript_gate (stripAnsi : String → String) (noiseLine : String → Bool)
    (now : Int) :
    (∀ (s : Session) (chunk : String),
        s.userMessageCount = 0 →
        s.messages.any (fun m => m.role == Role.user) = false →
        appendAssistantOutput stripAnsi noiseLine now s chunk = s) ∧
    (∀ (s : Session) (chunk : String),
        s.mode = Mode.chat →
        s.messages.any (fun m => m.role == Role.user) = true →
        s.lastAssistantIndex = -1 →
        filterAssistantNoiseChunk stripAnsi noiseLine chunk ≠ "" →
        sumContentLengths s.messages +
          (filterAssistantNoiseChunk stripAnsi noiseLine chunk).length ≤ 2000000 →
        appendAssistantOutput stripAnsi noiseLine now s chunk =
          { s with
              lastActivityAt := now
            , userMessageCount := if s.userMessageCount = 0 then 1 else s.userMessageCount
            , messages := s.messages ++
                [({ role := Role.assistant
                  , content := filterAssistantNoiseChunk stripAnsi noiseLine chunk
                  , ts := now } : Msg)]
            , lastAssistantIndex := (s.messages.length : Int) }) := by
  constructor
  · intro s chunk hc hu
    unfold appendAssistantOutput
    by_cases hm : s.mode ≠ Mode.chat ∨ chunk = ""
    · rw [if_pos hm]
    · rw [if_neg hm]
      simp [hc, hu]
  · intro s chunk hmode huser hidx hfil hbudget
    have hchunk : chunk ≠ "" := by
      intro hce
      apply hfil
      rw [hce]
      rfl
    have hbud2 : sumContentLengths (s.messages ++
        [({ role := Role.assistant
          , content := filterAssistantNoiseChunk stripAnsi noiseLine chunk
          , ts := now } : Msg)]) ≤ 2000000 := by
      simp only [sumContentLengths, List.map_append, List.sum_append, List.map_cons,
        List.map_nil, List.sum_cons, List.sum_nil]
      simp only [sumContentLengths] at hbudget
      omega
    unfold appendAssistantOutput
    rw [if_neg (by simp [hmode, hchunk])]
    by_cases hc : s.userMessageCount = 0
    · simp only [hc, if_pos, ite_true, huser, if_neg hfil, touchSession, hidx]
      rw [applyTranscriptBudget_id _ (by simpa using hbud2)]
      simp [hc, List.length_append]
    · simp only [hc, ite_false, huser, if_neg hfil, touchSession, hidx]
      rw [applyTranscriptBudget_id _ (by simpa using hbud2)]
      simp [hc, List.length_append]

/-- Witness for C6: before any user message the banner chunk is discarded;
after one user message the chunk opens a new assistant message. -/
theorem chat_transcript_gate_witness :
    appendAssistantOutput id (fun _ => false) 3
        (freshSession 1 "alice" "codex" "default" Mode.chat) "banner" =
      freshSession 1 "alice" "codex" "default" Mode.chat ∧
    appendAssistantOutput id (fun _ => false) 3 chatSessionWithUser "hi" =
      { chatSessionWithUser with
          lastActivityAt := 3
        , userMessageCount :=
            if chatSessionWithUser.userMessageCount = 0 then 1
            else chatSessionWithUser.userMessageCount
        , messages := chatSessionWithUser.messages ++
            [({ role := Role.assistant
              , content := filterAssistantNoiseChunk id (fun _ => false) "hi"
              , ts := 3 } : Msg)]
        , lastAssistantIndex := (chatSessionWithUser.messages.length : Int) } := by
  constructor
  · exact (chat_transcript_gate id (fun _ => false) 3).1
      (freshSession 1 "alice" "codex" "default" Mode.chat) "banner" rfl rfl
  · exact (chat_transcript_gate id (fun _ => false) 3).2 chatSessionWithUser "hi"
      rfl (by decide) (by decide) (by decide) (by decide)

/-! ### Transcript access isolation -/

/-- C10.  `getSessionTranscript` never crosses users or modes: a non-`none`
result is either the live transcript of a chat-mode session the requester
owns, or the requester's *own* stored transcript file (the disk lookup is
keyed by the requesting username's partition) of non-terminal mode.  In
particular a non-owner can never obtain another user's live transcript, and
terminal-mode sessions — live or persisted — always read as `none`. -/
theorem transcript_isolation (r : SessionManager) (username sessionId : String)
    (res : TranscriptResult)
    (h : getSessionTranscript r username sessionId = some res) :
    (∃ s, lookupA r.sessions sessionId = some s ∧ s.username = username ∧
      s.mode = Mode.chat ∧
      res = TranscriptResult.live s.sessionId s.agentId s.modelId s.mode s.createdAt
        s.title s.messages) ∨
    (∃ d, lookupA r.transcripts (username, sessionId) = some d ∧ d.mode = Mode.chat ∧
      res = TranscriptResult.stored d) := by
  unfold getSessionTranscript readTranscriptFile at h
  cases hl : lookupA r.sessions sessionId with
  | some active =>
    by_cases hown : active.username = username
    · cases hmode : active.mode with
      | terminal => simp [hl, hown, hmode] at h
      | chat =>
        simp [hl, hown, hmode] at h
        exact Or.inl ⟨active, rfl, hown, hmode, by rw [hmode]; exact h.symm⟩
    · cases hd : lookupA r.transcripts (username, sessionId) with
      | none => simp [hl, hown, hd] at h
      | some d =>
        cases hmode : d.mode with
        | terminal => simp [hl, hown, hd, hmode] at h
        | chat =>
          simp [hl, hown, hd, hmode] at h
          exact Or.inr ⟨d, rfl, hmode, h.symm⟩
  | none =>
    cases hd : lookupA r.transcripts (username, sessionId) with
    | none => simp [hl, hd] at h
    | some d =>
      cases hmode : d.mode with
      | terminal => simp [hl, hd, hmode] at h
      | chat =>
        simp [hl, hd, hmode] at h
        exact Or.inr ⟨d, rfl, hmode, h.symm⟩

/-- Witness for C10: the owner's live chat transcript request satisfies the
isolation disjunction. -/
theorem transcript_isolation_witness :
    (∃ s, lookupA aliceManager.sessions "alice-codex-1" = some s ∧
      s.username = "alice" ∧ s.mode = Mode.chat ∧
      TranscriptResult.live s.sessionId s.agentId s.modelId s.mode s.createdAt
          s.title s.messages =
        TranscriptResult.live s.sessionId s.agentId s.modelId s.mode s.createdAt
          s.title s.messages) ∨
    (∃ d, lookupA aliceManager.transcripts ("alice", "alice-codex-1") = some d ∧
      d.mode = Mode.chat ∧
      TranscriptResult.live (freshSession 1 "alice" "codex" "default" Mode.chat).sessionId
          "codex" "default" Mode.chat 1 "codex / default" [] =
        TranscriptResult.stored d) := by
  have h := transcript_isolation aliceManager "alice" "alice-codex-1"
    (TranscriptResult.live (freshSession 1 "alice" "codex" "default" Mode.chat).sessionId
      "codex" "default" Mode.chat 1 "codex / default" []) (by decide)
  rcases h with ⟨s, hs, hu, hm, _hres⟩ | ⟨d, hd, hm, hres⟩
  · exact Or.inl ⟨s, hs, hu, hm, rfl⟩
  · exact Or.inr ⟨d, hd, hm, hres⟩

/-! ### The idle reaper -/

theorem lookupA_mem {κ α : Type} [DecidableEq κ] :
    ∀ (l : List (κ × α)) (k : κ) (v : α), lookupA l k = some v → (k, v) ∈ l := by
  intro l
  induction l with
  | nil => intro k v h; exact absurd h (by simp [lookupA])
  | cons p rest ih =>
    intro k v h
    unfold lookupA at h
    by_cases hp : p.1 = k
    · rw [if_pos hp] at h
      injection h with h2
      rw [← hp, ← h2]
      simp
    · rw [if_neg hp] at h
      exact List.mem_cons_of_mem p (ih k v h)

theorem lookupA_of_mem_nodup {κ α : Type} [DecidableEq κ] :
    ∀ (l : List (κ × α)), (l.map (fun p => p.1)).Nodup →
      ∀ (k : κ) (v : α), (k, v) ∈ l → lookupA l k = some v := by
  intro l
  induction l with
  | nil => intro _ k v h; exact absurd h (by simp)
  | cons p rest ih =>
    intro hn k v h
    have hn2 : (rest.map (fun p => p.1)).Nodup := (List.nodup_cons.mp hn).2
    have hnotin : p.1 ∉ rest.map (fun p => p.1) := (List.nodup_cons.mp hn).1
    rcases List.mem_cons.mp h with heq | hmem
    · rw [← heq]
      simp [lookupA]
    · have hne : p.1 ≠ k := by
        intro hc
        apply hnotin
        rw [hc]
        exact List.mem_map.mpr ⟨(k, v), hmem, rfl⟩
      unfold lookupA
      rw [if_neg hne]
      exact ih hn2 k v hmem

theorem reapOne_lookup (now : Int) (acc : SessionManager × List Eff) (sid x : String) :
    lookupA (reapOne now acc sid).1.sessions x =
      if x = sid then none else lookupA acc.1.sessions x := by
  cases hsb : lookupA acc.1.sessions sid with
  | none =>
    simp only [reapOne, hsb]
    exact lookup_destroySession_sessions now acc.1 sid x
  | some s =>
    simp only [reapOne, hsb]
    exact lookup_destroySession_sessions now acc.1 sid x

theorem reap_fold_lookup (now : Int) :
    ∀ (ids : List String) (acc : SessionManager × List Eff) (x : String),
      lookupA (ids.foldl (reapOne now) acc).1.sessions x =
        if x ∈ ids then none else lookupA acc.1.sessions x := by
  intro ids
  induction ids with
  | nil => intro acc x; simp
  | cons id rest ih =>
    intro acc x
    simp only [List.foldl_cons]
    rw [ih (reapOne now acc id) x, reapOne_lookup now acc id x]
    by_cases hr : x ∈ rest
    · simp [hr]
    · by_cases hx : x = id
      · simp [hr, hx]
      · simp [hr, hx]

/-- C9.  The reaper sweep destroys exactly the sessions whose idle time
strictly exceeds a finite positive threshold (each such id reads as gone
afterwards, every other session survives with identical state), and destroys
nothing at all when the configured timeout is non-positive or not finite. -/
theorem reaper_exact (now : Int) (r : SessionManager)
    (hnodup : (r.sessions.map (fun p => p.1)).Nodup)
    (hlast : ∀ p ∈ r.sessions, p.2.lastActivityAt ≠ 0) :
    (∀ t, r.inactiveSessionTimeout = JSNum.num t → 0 < t →
      ∀ sid s, lookupA r.sessions sid = some s →
        lookupA (cleanupInactiveSessions now r).1.sessions sid =
          (if now - s.lastActivityAt > t then none else some s)) ∧
    (∀ t, r.inactiveSessionTimeout = JSNum.num t → t ≤ 0 →
      cleanupInactiveSessions now r = (r, [])) ∧
    (r.inactiveSessionTimeout.isFinite = false →
      cleanupInactiveSessions now r = (r, [])) := by
  refine ⟨?_, ?_, ?_⟩
  · intro t ht hpos sid s hs
    have hmem : (sid, s) ∈ r.sessions := lookupA_mem r.sessions sid s hs
    have hlaeq : lastActivityOf now s = s.lastActivityAt := by
      unfold lastActivityOf
      rw [if_pos (hlast (sid, s) hmem)]
    unfold cleanupInactiveSessions
    rw [ht]
    simp only [if_neg (not_le.mpr hpos)]
    rw [reap_fold_lookup now _ (r, []) sid]
    by_cases hstale : now - s.lastActivityAt > t
    · rw [if_pos, if_pos hstale]
      exact List.mem_map.mpr ⟨(sid, s),
        List.mem_filter.mpr ⟨hmem, by simp [hlaeq]; exact hstale⟩, rfl⟩
    · rw [if_neg, if_neg hstale]
      · exact hs
      · intro hin
        rcases List.mem_map.mp hin with ⟨p, hp, hpeq⟩
        have hpmem := (List.mem_filter.mp hp).1
        have hppred := (List.mem_filter.mp hp).2
        have hpv : p.2 = s := by
          have := lookupA_of_mem_nodup r.sessions hnodup p.1 p.2 hpmem
          rw [hpeq, hs] at this
          injection this with hv
          exact hv.symm
        have hpla : lastActivityOf now p.2 = p.2.lastActivityAt := by
          unfold lastActivityOf
          rw [if_pos (hlast p hpmem)]
        rw [hpla, hpv] at hppred
        simp at hppred
        omega
  · intro t ht hle
    unfold cleanupInactiveSessions
    rw [ht]
    simp [hle]
  · intro hnf
    unfold cleanupInactiveSessions
    cases hjs : r.inactiveSessionTimeout with
    | num v => rw [hjs] at hnf; exact absurd hnf (by simp [JSNum.isFinite])
    | nan => rfl
    | posInf => rfl
    | negInf => rfl

/-- Witness for C9: at time 1000 the sweep destroys exactly the stale session
and leaves the active one untouched. -/
theorem reaper_exact_witness :
    lookupA (cleanupInactiveSessions 1000 reapManager).1.sessions "alice-codex-1" = none ∧
    lookupA (cleanupInactiveSessions 1000 reapManager).1.sessions "bob-codex-2" =
      some activeSession := by
  have h := reaper_exact 1000 reapManager (by decide) (by decide)
  constructor
  · have h1 := h.1 10 rfl (by decide) "alice-codex-1" staleSession (by decide)
    rw [if_pos (by decide)] at h1
    exact h1
  · have h2 := h.1 10 rfl (by decide) "bob-codex-2" activeSession (by decide)
    rw [if_neg (by decide)] at h2
    exact h2

theorem normEnded_idem (o : Option Int) : normEnded (normEnded o) = normEnded o := by
  cases o with
  | none => rfl
  | some v =>
    unfold normEnded
    by_cases h : v = 0
    · simp [h]
    · simp [h]

theorem normReason_idem (o : Option String) : normReason (normReason o) = normReason o := by
  cases o with
  | none => rfl
  | some r =>
    unfold normReason
    by_cases h : r = ""
    · simp [h]
    · simp [h]

theorem fallbackTitle_ne_empty (q : HistoryItem) : fallbackTitle q ≠ "" := by
  unfold fallbackTitle
  intro h
  have hl := congrArg String.length h
  rw [String.length_append, String.length_append] at hl
  have h3 : (" / ").length = 3 := rfl
  have h0 : ("" : String).length = 0 := rfl
  rw [h3, h0] at hl
  omega

theorem normStable_of_facts (now : Int) (q : HistoryItem)
    (h1 : q.sessionId ≠ "") (h2 : q.agentId ≠ "") (h3 : q.modelId ≠ "")
    (h4 : q.createdAt ≠ 0) (h5 : normEnded q.endedAt = q.endedAt) (h6 : q.title ≠ "")
    (h7 : q.hasTranscript = (if q.mode = Mode.terminal then false else true))
    (h8 : normReason q.endedReason = q.endedReason) : NormStable now q := by
  unfold NormStable normalizeHistoryItem
  rw [if_neg h1]
  refine congrArg some ?_
  apply HistoryItem.ext
  all_goals simp [h2, h3, h4, h5, h6, h7.symm, h8]

theorem normStable_facts (now : Int) (hnow : now ≠ 0) (q : HistoryItem)
    (h : NormStable now q) :
    q.sessionId ≠ "" ∧ q.agentId ≠ "" ∧ q.modelId ≠ "" ∧ q.createdAt ≠ 0 ∧
      normEnded q.endedAt = q.endedAt ∧ q.title ≠ "" ∧
      q.hasTranscript = (if q.mode = Mode.terminal then false else true) ∧
      normReason q.endedReason = q.endedReason := by
  unfold NormStable normalizeHistoryItem at h
  by_cases h1 : q.sessionId = ""
  · rw [if_pos h1] at h; exact absurd h (by simp)
  · rw [if_neg h1] at h
    injection h with h2
    refine ⟨h1, ?_, ?_, ?_, ?_, ?_, ?_, ?_⟩
    · intro hc
      have ha : (if q.agentId = "" then "unknown" else q.agentId) = q.agentId :=
        congrArg HistoryItem.agentId h2
      rw [if_pos hc, hc] at ha
      exact absurd ha (by decide)
    · intro hc
      have ha : (if q.modelId = "" then "default" else q.modelId) = q.modelId :=
        congrArg HistoryItem.modelId h2
      rw [if_pos hc, hc] at ha
      exact absurd ha (by decide)
    · intro hc
      have ha : (if q.createdAt = 0 then now else q.createdAt) = q.createdAt :=
        congrArg HistoryItem.createdAt h2
      rw [if_pos hc, hc] at ha
      exact hnow ha
    · exact congrArg HistoryItem.endedAt h2
    · intro hc
      have ha : (if q.title = "" then fallbackTitle q else q.title) = q.title :=
        congrArg HistoryItem.title h2
      rw [if_pos hc, hc] at ha
      exact fallbackTitle_ne_empty q ha
    · exact (congrArg HistoryItem.hasTranscript h2).symm
    · exact congrArg HistoryItem.endedReason h2

theorem normalizeHistoryItem_stable (now : Int) (hnow : now ≠ 0) (x y : HistoryItem)
    (h : normalizeHistoryItem now x = some y) : NormStable now y := by
  unfold normalizeHistoryItem at h
  by_cases h1 : x.sessionId = ""
  · rw [if_pos h1] at h; exact absurd h (by simp)
  · rw [if_neg h1] at h
    injection h with h2
    subst h2
    apply normStable_of_facts
    · simpa using h1
    · by_cases hx : x.agentId = "" <;> simp [hx]
    · by_cases hx : x.modelId = "" <;> simp [hx]
    · by_cases hx : x.createdAt = 0 <;> simp [hx, hnow]
    · exact normEnded_idem x.endedAt
    · by_cases hx : x.title = "" <;> simp [hx, fallbackTitle_ne_empty]
    · rfl
    · exact normReason_idem x.endedReason

theorem mergeItems_sessionId (p q : HistoryItem) :
    (mergeItems p q).sessionId = q.sessionId := rfl

theorem mergeItems_stable (now : Int) (hnow : now ≠ 0) (p q : HistoryItem)
    (hp : NormStable now p) (hq : NormStable now q) :
    NormStable now (mergeItems p q) := by
  obtain ⟨hp1, hp2, hp3, hp4, hp5, hp6, hp7, hp8⟩ := normStable_facts now hnow p hp
  obtain ⟨hq1, hq2, hq3, hq4, hq5, hq6, hq7, hq8⟩ := normStable_facts now hnow q hq
  apply normStable_of_facts
  · simpa [mergeItems] using hq1
  · simpa [mergeItems] using hq2
  · simpa [mergeItems] using hq3
  · show (if p.createdAt = 0 then q.createdAt else p.createdAt) ≠ 0
    by_cases hc : p.createdAt = 0 <;> simp [hc, hp4, hq4]
  · show normEnded (mergeItems p q).endedAt = (mergeItems p q).endedAt
    have hpe : normEnded (normEnded p.endedAt) = normEnded p.endedAt := normEnded_idem _
    simp only [mergeItems]
    cases he : q.endedAt with
    | none => simpa using hpe
    | some v =>
      by_cases hv : v = 0
      · simpa [hv] using hpe
      · simp [hv, normEnded]
  · simpa [mergeItems] using hq6
  · show (mergeItems p q).hasTranscript =
      (if (mergeItems p q).mode = Mode.terminal then false else true)
    simpa [mergeItems] using hq7
  · simpa [mergeItems] using hq8

/-! ### Crash recovery: compaction structure -/

theorem mem_sids_dedupInsert (x : HistoryItem) (sid : String) :
    ∀ (acc : List HistoryItem),
      (sid ∈ (dedupInsert acc x).map (fun e => e.sessionId) ↔
        (sid ∈ acc.map (fun e => e.sessionId) ∨ sid = x.sessionId)) := by
  intro acc
  induction acc with
  | nil => simp [dedupInsert]
  | cons p rest ih =>
    by_cases hp : p.sessionId = x.sessionId
    · simp only [dedupInsert, if_pos hp, List.map_cons, List.mem_cons,
        mergeItems_sessionId]
      constructor
      · rintro (h | h)
        · exact Or.inr h
        · exact Or.inl (Or.inr h)
      · rintro ((h | h) | h)
        · exact Or.inl (by rw [h, hp])
        · exact Or.inr h
        · exact Or.inl h
    · simp only [dedupInsert, if_neg hp, List.map_cons, List.mem_cons, ih]
      tauto

theorem sidsNodup_dedupInsert (x : HistoryItem) :
    ∀ (acc : List HistoryItem), SidsNodup acc → SidsNodup (dedupInsert acc x) := by
  intro acc
  induction acc with
  | nil => intro _; simp [dedupInsert, SidsNodup]
  | cons p rest ih =>
    intro hn
    unfold SidsNodup at hn ⊢
    rw [List.map_cons, List.nodup_cons] at hn
    by_cases hp : p.sessionId = x.sessionId
    · unfold dedupInsert
      rw [if_pos hp, List.map_cons, List.nodup_cons, mergeItems_sessionId]
      exact ⟨hp ▸ hn.1, hn.2⟩
    · unfold dedupInsert
      rw [if_neg hp, List.map_cons, List.nodup_cons]
      constructor
      · intro hc
        rcases (mem_sids_dedupInsert x p.sessionId rest).mp hc with h | h
        · exact hn.1 h
        · exact hp h
      · exact ih hn.2

theorem stable_dedupInsert (now : Int) (hnow : now ≠ 0) (x : HistoryItem) :
    ∀ (acc : List HistoryItem), (∀ e ∈ acc, NormStable now e) → NormStable now x →
      ∀ e ∈ dedupInsert acc x, NormStable now e := by
  intro acc
  induction acc with
  | nil =>
    intro _ hx e he
    rw [dedupInsert] at he
    rcases List.mem_singleton.mp he with rfl
    exact hx
  | cons p rest ih =>
    intro ha hx e he
    unfold dedupInsert at he
    by_cases hp : p.sessionId = x.sessionId
    · rw [if_pos hp] at he
      rcases List.mem_cons.mp he with rfl | hmem
      · exact mergeItems_stable now hnow p x (ha p (by simp)) hx
      · exact ha e (List.mem_cons_of_mem p hmem)
    · rw [if_neg hp] at he
      rcases List.mem_cons.mp he with rfl | hmem
      · exact ha e (by simp)
      · exact ih (fun e2 he2 => ha e2 (List.mem_cons_of_mem p he2)) hx e hmem

theorem dedupInsert_append (x : HistoryItem) :
    ∀ (acc : List HistoryItem), x.sessionId ∉ acc.map (fun e => e.sessionId) →
      dedupInsert acc x = acc ++ [x] := by
  intro acc
  induction acc with
  | nil => intro _; rfl
  | cons p rest ih =>
    intro hnotin
    rw [List.map_cons, List.mem_cons] at hnotin
    push_neg at hnotin
    unfold dedupInsert
    rw [if_neg (fun hc => hnotin.1 hc.symm), ih hnotin.2]
    rfl

theorem compactFold_clean (now : Int) (hnow : now ≠ 0) :
    ∀ (items acc : List HistoryItem), SidsNodup acc → (∀ e ∈ acc, NormStable now e) →
      SidsNodup (items.foldl (compactFoldStep now) acc) ∧
        ∀ e ∈ items.foldl (compactFoldStep now) acc, NormStable now e := by
  intro items
  induction items with
  | nil => intro acc hn hs; exact ⟨hn, hs⟩
  | cons raw rest ih =>
    intro acc hn hs
    simp only [List.foldl_cons]
    cases hr : normalizeHistoryItem now raw with
    | none =>
      have : compactFoldStep now acc raw = acc := by unfold compactFoldStep; rw [hr]
      rw [this]
      exact ih acc hn hs
    | some item =>
      have hstep : compactFoldStep now acc raw = dedupInsert acc item := by
        unfold compactFoldStep; rw [hr]
      rw [hstep]
      exact ih (dedupInsert acc item) (sidsNodup_dedupInsert item acc hn)
        (stable_dedupInsert now hnow item acc hs
          (normalizeHistoryItem_stable now hnow raw item hr))

theorem insertByCreatedAt_perm (x : HistoryItem) :
    ∀ (l : List HistoryItem), List.Perm (insertByCreatedAt x l) (x :: l) := by
  intro l
  induction l with
  | nil => simp [insertByCreatedAt]
  | cons y ys ih =>
    unfold insertByCreatedAt
    split
    · exact (ih.cons y).trans (List.Perm.swap x y ys)
    · exact List.Perm.refl _

theorem sortByCreatedAt_perm (l : List HistoryItem) :
    List.Perm (sortByCreatedAt l) l := by
  suffices h : ∀ (l acc : List HistoryItem),
      List.Perm (l.foldl (fun acc x => insertByCreatedAt x acc) acc) (acc ++ l) by
    simpa [sortByCreatedAt] using h l []
  intro l
  induction l with
  | nil => intro acc; simp
  | cons x xs ih =>
    intro acc
    simp only [List.foldl_cons]
    refine (ih (insertByCreatedAt x acc)).trans ?_
    refine ((insertByCreatedAt_perm x acc).append_right xs).trans ?_
    exact List.perm_middle.symm

theorem compactHistory_clean (now : Int) (hnow : now ≠ 0) (l : List HistoryItem) :
    CleanHist now (compactHistory now l) := by
  obtain ⟨hn, hs⟩ := compactFold_clean now hnow l [] (by simp [SidsNodup]) (by simp)
  have hperm := sortByCreatedAt_perm (l.foldl (compactFoldStep now) [])
  constructor
  · unfold compactHistory SidsNodup sliceLast80
    rw [List.map_drop]
    apply List.Nodup.sublist (List.drop_sublist _ _)
    unfold SidsNodup at hn
    exact ((hperm.map (fun e => e.sessionId)).nodup_iff).mpr hn
  · intro e he
    unfold compactHistory sliceLast80 at he
    have he2 := (List.drop_sublist _ _).mem he
    exact hs e (hperm.mem_iff.mp he2)

theorem compactHistory_perm_of_clean (now : Int) (_hnow : now ≠ 0) (l : List HistoryItem)
    (hc : CleanHist now l) (hlen : l.length ≤ 80) :
    List.Perm (compactHistory now l) l := by
  have hfold : l.foldl (compactFoldStep now) [] = l := by
    suffices h : ∀ (l2 acc : List HistoryItem), (∀ e ∈ l2, NormStable now e) →
        SidsNodup (acc ++ l2) → l2.foldl (compactFoldStep now) acc = acc ++ l2 by
      simpa using h l [] hc.2 (by simpa using hc.1)
    intro l2
    induction l2 with
    | nil => intro acc _ _; simp
    | cons x xs ih =>
      intro acc hstab hnod
      simp only [List.foldl_cons]
      have hx : NormStable now x := hstab x (by simp)
      have hnotin : x.sessionId ∉ acc.map (fun e => e.sessionId) := by
        intro hc2
        unfold SidsNodup at hnod
        rw [List.map_append, List.map_cons] at hnod
        exact (List.nodup_append.mp hnod).2.2 hc2 (by simp)
      have hstep : compactFoldStep now acc x = acc ++ [x] := by
        unfold compactFoldStep
        unfold NormStable at hx
        rw [hx]
        exact dedupInsert_append x acc hnotin
      rw [hstep, ih (acc ++ [x]) (fun e he => hstab e (List.mem_cons_of_mem x he))
        (by simpa [List.append_assoc] using hnod)]
      simp
  unfold compactHistory sliceLast80
  rw [hfold]
  have hlen2 : (sortByCreatedAt l).length = l.length := (sortByCreatedAt_perm l).length_eq
  rw [hlen2, Nat.sub_eq_zero_of_le hlen, List.drop_zero]
  exact sortByCreatedAt_perm l

/-! ### Crash recovery: the history store -/

theorem histRead_write_self (now : Int) (st : HistStore) (u : String)
    (h : List HistoryItem) :
    histRead now (writeHistoryForUser now st u h) u = compactHistory now h := by
  unfold histRead readHistoryForUser writeHistoryForUser
  simp [lookupA_setEntry_self]

theorem histRead_write_ne (now : Int) (st : HistStore) (u v : String)
    (h : List HistoryItem) (hne : v ≠ u) :
    histRead now (writeHistoryForUser now st u h) v = histRead now st v := by
  unfold histRead readHistoryForUser writeHistoryForUser
  simp only [lookupA_setEntry_ne _ _ _ _ hne]
  cases hc : lookupA st.cache v with
  | some h2 => simp
  | none => simp [lookupA_setEntry_ne _ _ _ _ hne]

theorem histRead_after_read (now : Int) (st : HistStore) (u v : String) :
    histRead now (readHistoryForUser now st u).2 v = histRead now st v := by
  unfold histRead readHistoryForUser
  cases hc : lookupA st.cache u with
  | some h => simp [hc]
  | none =>
    by_cases hv : v = u
    · subst hv
      simp [hc, lookupA_setEntry_self]
    · cases hc2 : lookupA st.cache v with
      | some h2 => simp [hc, hc2, lookupA_setEntry_ne _ _ _ _ hv]
      | none => simp [hc, hc2, lookupA_setEntry_ne _ _ _ _ hv]

theorem snapshotToRaw_normalized (now : Int) (it : SnapshotItem)
    (hsid : it.sessionId ≠ "") :
    ∃ norm, normalizeHistoryItem now (snapshotToRaw now it) = some norm ∧
      norm.sessionId = it.sessionId ∧ norm.endedReason = some "server_restart" := by
  unfold normalizeHistoryItem
  rw [if_neg (show ¬ (snapshotToRaw now it).sessionId = "" from hsid)]
  refine ⟨_, rfl, rfl, ?_⟩
  show normReason (some "server_restart") = some "server_restart"
  decide

/-! ### Crash recovery: one recovery step -/

theorem recoverStep_props (now : Int) (hnow : now ≠ 0) (st : HistStore) (it : SnapshotItem)
    (hsid : it.sessionId ≠ "") (husr : it.username ≠ "")
    (hinv : ∀ w, CleanHist now (histRead now st w))
    (hsize : (histRead now st it.username).length + 1 ≤ 80) :
    (∀ w, CleanHist now (histRead now (recoverStep now st it) w)) ∧
    goodEntry now (recoverStep now st it) it.username it.sessionId ∧
    (∀ w sid, goodEntry now st w sid → goodEntry now (recoverStep now st it) w sid) ∧
    (∀ w, (histRead now (recoverStep now st it) w).length ≤
      (if w = it.username then (histRead now st w).length + 1
       else (histRead now st w).length)) := by
  obtain ⟨norm, hnormEq, hnsid, hnreason⟩ := snapshotToRaw_normalized now it hsid
  have hnstable : NormStable now norm := normalizeHistoryItem_stable now hnow _ norm hnormEq
  have hstep : recoverStep now st it =
      writeHistoryForUser now (readHistoryForUser now st it.username).2 it.username
        ((histRead now st it.username).filter
          (fun h => ¬ h.sessionId = norm.sessionId) ++ [norm]) := by
    unfold recoverStep
    simp only [hnormEq]
    rw [if_neg husr]
    rfl
  set H := histRead now st it.username with hH
  set filt := H.filter (fun h => ¬ h.sessionId = norm.sessionId) with hfiltd
  set next := filt ++ [norm] with hnextd
  have hCleanU := hinv it.username
  have hHn : (H.map (fun e => e.sessionId)).Nodup := hCleanU.1
  have hfiltStable : ∀ e ∈ filt, NormStable now e :=
    fun e he => hCleanU.2 e (List.mem_of_mem_filter he)
  have hfiltPred : ∀ e ∈ filt, ¬ e.sessionId = norm.sessionId := by
    intro e he
    have := List.of_mem_filter he
    simpa using this
  have hfiltNodup : (filt.map (fun e => e.sessionId)).Nodup :=
    hHn.sublist ((List.filter_sublist H).map _)
  have hnextClean : CleanHist now next := by
    constructor
    · unfold SidsNodup
      rw [hnextd, List.map_append, List.nodup_append]
      refine ⟨hfiltNodup, by simp, ?_⟩
      intro a ha hb
      rcases List.mem_map.mp ha with ⟨e, he, rfl⟩
      rw [List.map_cons, List.map_nil, List.mem_singleton] at hb
      exact hfiltPred e he hb
    · intro e he
      rcases List.mem_append.mp he with h | h
      · exact hfiltStable e h
      · rcases List.mem_singleton.mp h with rfl
        exact hnstable
  have hfl : filt.length ≤ H.length := by
    rw [hfiltd]
    exact List.length_filter_le _ _
  have hnextLen : next.length ≤ 80 := by
    rw [hnextd, List.length_append]
    simp only [List.length_cons, List.length_nil]
    omega
  have hperm : List.Perm (compactHistory now next) next :=
    compactHistory_perm_of_clean now hnow next hnextClean hnextLen
  have hReadU : histRead now (recoverStep now st it) it.username =
      compactHistory now next := by
    rw [hstep]
    exact histRead_write_self now _ it.username next
  have hReadNe : ∀ w, w ≠ it.username →
      histRead now (recoverStep now st it) w = histRead now st w := by
    intro w hw
    rw [hstep, histRead_write_ne now _ it.username w next hw, histRead_after_read]
  have hgoodNew : goodEntry now (recoverStep now st it) it.username it.sessionId := by
    constructor
    · rw [hReadU, hperm.countP_eq, hnextd, List.countP_append]
      have hf0 : filt.countP (fun e => e.sessionId == it.sessionId) = 0 := by
        rw [List.countP_eq_zero]
        intro e he
        have hne : e.sessionId ≠ it.sessionId := by
          intro hc
          exact hfiltPred e he (hc.trans hnsid.symm)
        simpa using beq_false_of_ne hne
      rw [hf0]
      have h1 : List.countP (fun e => e.sessionId == it.sessionId) [norm] = 1 := by
        simp [List.countP_cons, hnsid]
      rw [h1]
    · intro e he heq
      rw [hReadU] at he
      rcases List.mem_append.mp (hperm.mem_iff.mp he) with h | h
      · exact absurd (heq.trans hnsid.symm) (hfiltPred e h)
      · rcases List.mem_singleton.mp h with rfl
        exact hnreason
  refine ⟨?_, hgoodNew, ?_, ?_⟩
  · intro w
    by_cases hw : w = it.username
    · subst hw
      rw [hReadU]
      exact compactHistory_clean now hnow next
    · rw [hReadNe w hw]
      exact hinv w
  · intro w sid hg
    by_cases hw : w = it.username
    · subst hw
      by_cases hs2 : sid = it.sessionId
      · subst hs2
        exact hgoodNew
      · constructor
        · rw [hReadU, hperm.countP_eq, hnextd, List.countP_append]
          have h1 : List.countP (fun e => e.sessionId == sid) [norm] = 0 := by
            have hne : norm.sessionId ≠ sid := by
              rw [hnsid]
              exact fun hc => hs2 hc.symm
            simp [List.countP_cons, beq_false_of_ne hne]
          have h2 : filt.countP (fun e => e.sessionId == sid) =
              H.countP (fun e => e.sessionId == sid) := by
            rw [hfiltd, List.countP_filter]
            apply List.countP_congr
            intro a _
            constructor
            · intro hand
              simp only [Bool.and_eq_true] at hand
              exact hand.1
            · intro hp
              rw [Bool.and_eq_true]
              refine ⟨hp, ?_⟩
              have haid : a.sessionId = sid := by simpa using hp
              have hne : ¬ a.sessionId = norm.sessionId := by
                rw [haid, hnsid]
                exact hs2
              exact decide_eq_true hne
          rw [h1, h2, Nat.add_zero]
          exact hg.1
        · intro e he heq
          rw [hReadU] at he
          rcases List.mem_append.mp (hperm.mem_iff.mp he) with h | h
          · exact hg.2 e (List.mem_of_mem_filter h) heq
          · rcases List.mem_singleton.mp h with rfl
            exact hnreason
    · have hr := hReadNe w hw
      unfold goodEntry at hg ⊢
      rw [hr]
      exact hg
  · intro w
    by_cases hw : w = it.username
    · subst hw
      rw [if_pos rfl, hReadU, hperm.length_eq, hnextd, List.length_append, ← hH]
      simp only [List.length_cons, List.length_nil]
      omega
    · rw [if_neg hw, hReadNe w hw]

/-! ### Crash recovery: the full replay -/

theorem recover_fold (now : Int) (hnow : now ≠ 0) :
    ∀ (items : List SnapshotItem) (st : HistStore),
      (∀ w, CleanHist now (histRead now st w)) →
      (∀ it ∈ items, it.sessionId ≠ "" ∧ it.username ≠ "") →
      (∀ it ∈ items, (histRead now st it.username).length +
        items.countP (fun j => j.username == it.username) ≤ 80) →
      (∀ it ∈ items,
        goodEntry now (items.foldl (recoverStep now) st) it.username it.sessionId) ∧
      (∀ w sid, goodEntry now st w sid →
        goodEntry now (items.foldl (recoverStep now) st) w sid) := by
  intro items
  induction items with
  | nil => intro st _ _ _; exact ⟨by simp, fun w sid hg => hg⟩
  | cons it rest ih =>
    intro st hinv hvalid hsize
    have hv := hvalid it (by simp)
    have hsizeIt := hsize it (by simp)
    have hcount1 : (it :: rest).countP (fun j => j.username == it.username) =
        rest.countP (fun j => j.username == it.username) + 1 := by
      rw [List.countP_cons]
      simp
    have hstepSize : (histRead now st it.username).length + 1 ≤ 80 := by
      rw [hcount1] at hsizeIt
      omega
    obtain ⟨hInv1, hGood1, hPres1, hLen1⟩ :=
      recoverStep_props now hnow st it hv.1 hv.2 hinv hstepSize
    have hsize1 : ∀ j ∈ rest, (histRead now (recoverStep now st it) j.username).length +
        rest.countP (fun k => k.username == j.username) ≤ 80 := by
      intro j hj
      have hlenj := hLen1 j.username
      have hsizej := hsize j (by simp [hj])
      by_cases hju : j.username = it.username
      · rw [if_pos hju] at hlenj
        have hcnt : (it :: rest).countP (fun k => k.username == j.username) =
            rest.countP (fun k => k.username == j.username) + 1 := by
          rw [List.countP_cons]
          simp [hju.symm]
        rw [hcnt] at hsizej
        omega
      · rw [if_neg hju] at hlenj
        have hcnt : rest.countP (fun k => k.username == j.username) ≤
            (it :: rest).countP (fun k => k.username == j.username) := by
          rw [List.countP_cons]
          omega
        omega
    obtain ⟨hGoodRest, hPresRest⟩ := ih (recoverStep now st it) hInv1
      (fun j hj => hvalid j (by simp [hj])) hsize1
    constructor
    · intro j hj
      simp only [List.foldl_cons]
      rcases List.mem_cons.mp hj with rfl | hjr
      · exact hPresRest j.username j.sessionId hGood1
      · exact hGoodRest j hjr
    · intro w sid hg
      simp only [List.foldl_cons]
      exact hPresRest w sid (hPres1 w sid hg)

/-- C4 amended.  Crash recovery replays every valid snapshot record into the
owner's durable history with the `server_restart` reason and deletes the
snapshot file; the recovered entry is unique (never duplicated), and it is
guaranteed to be present — "exactly one" — *provided* the owner's merged
history stays within the 80-entry compaction cap (the hypothesis `hsize`);
past the cap, compaction may drop the oldest-by-`createdAt` entries,
including a freshly recovered one (see the counterexample). -/
theorem hist_recovery_amended (now : Int) (files : List (String × List HistoryItem))
    (items : List SnapshotItem) (hnow : now ≠ 0)
    (hvalid : ∀ it ∈ items, it.sessionId ≠ "" ∧ it.username ≠ "")
    (hsize : ∀ it ∈ items,
      (histRead now { files := files, cache := [] } it.username).length +
        items.countP (fun j => j.username == it.username) ≤ 80) :
    (recoverRuntimeState now { files := files, cache := [] } (some items)).2 = none ∧
    ∀ it ∈ items,
      ((histRead now (recoverRuntimeState now { files := files, cache := [] }
          (some items)).1 it.username).countP
        (fun e => e.sessionId == it.sessionId) = 1 ∧
      ∀ e ∈ histRead now (recoverRuntimeState now { files := files, cache := [] }
          (some items)).1 it.username,
        e.sessionId = it.sessionId → e.endedReason = some "server_restart") := by
  have hinv : ∀ w, CleanHist now (histRead now { files := files, cache := [] } w) := by
    intro w
    unfold histRead readHistoryForUser
    simp only [lookupA]
    cases hf : lookupA files w with
    | none =>
      simp only [hf]
      exact ⟨by simp [SidsNodup], by simp⟩
    | some raw =>
      simp only [hf]
      exact compactHistory_clean now hnow raw
  obtain ⟨hgood, _⟩ := recover_fold now hnow items { files := files, cache := [] }
    hinv hvalid hsize
  exact ⟨rfl, fun it hit => hgood it hit⟩

/-- Witness for C4 (amended): recovering one live session into an empty
history store yields exactly one restart-marked entry and deletes the
snapshot. -/
theorem hist_recovery_amended_witness :
    (recoverRuntimeState 5 { files := [], cache := [] } (some [recoverItem])).2 = none ∧
    (histRead 5 (recoverRuntimeState 5 { files := [], cache := [] }
        (some [recoverItem])).1 recoverItem.username).countP
      (fun e => e.sessionId == recoverItem.sessionId) = 1 := by
  have h := hist_recovery_amended 5 [] [recoverItem] (by decide) (by decide) (by decide)
  exact ⟨h.1, (h.2 recoverItem (by simp)).1⟩

/-- C4 counterexample.  The claim promises exactly one `HistoryEntry` per
previously-live session after recovery; here the owner's durable history
already holds 80 entries, all created later than the crashed session, so the
80-entry compaction inside `_writeHistoryForUser` sorts the recovered entry
first by `createdAt` and slices it away: afterwards the owner's history holds
*zero* entries for the recovered session id. -/
theorem hist_recovery_counterexample :
    (histRead 1000 (recoverRuntimeState 1000 cappedHistoryStore
        (some [oldLiveItem])).1 "alice").countP
      (fun e => e.sessionId == "old") = 0 := by
  decide
